import Mathlib

/-!
Verification development for the nxclaw runtime.

Each section below shallowly embeds one subsystem of the source tree
(lane queue, background task manager, memory store, autonomous loop,
objective queue) as executable Lean definitions, translated directly from
the JavaScript source, and proves or refutes the specification claims
about it.  JavaScript numbers are modelled as Nat / Int / Rat with the
source's own clamping made explicit; strings are modelled as Lean strings
manipulated through character-list helpers mirroring the JS string
operations used by the source.
-/

set_option maxRecDepth 4000

/- Batteries marks the Rat field operations irreducible, which blocks the
evaluation of concrete rational scores in decide proofs; restore the
default reducibility (this does not change any definition). -/
namespace Nxclaw

/- Batteries marks the Rat field operations irreducible, which blocks the
evaluation of concrete rational scores in decide proofs; restore the
default reducibility for this file (this does not change any
definition). -/
attribute [local semireducible] Rat.add Rat.mul Rat.inv Rat.sub

/-! ## Character and string helpers mirroring the JavaScript string API -/

/-- Whitespace test modelling the JavaScript regex class for whitespace
(space and the ASCII control whitespace range). -/
def isWsCh (c : Char) : Bool := c.toNat = 32 || (9 ≤ c.toNat && c.toNat ≤ 13)

/-- Word-character test modelling the JavaScript word class used by word
boundaries: ASCII letters, digits and underscore. -/
def isWordCh (c : Char) : Bool := c.isAlphanum || c = '_'

/-- Split a character list on a separator character; models
JavaScript String.split with a single-character separator (an empty
input yields one empty field, as in JS). -/
def splitOnCh (sep : Char) (cs : List Char) : List (List Char) :=
  cs.foldr
    (fun c acc =>
      match acc with
      | [] => [[]]
      | h :: t => if c = sep then [] :: h :: t else (c :: h) :: t)
    [[]]

/-- JavaScript String.split on a newline. -/
def jsSplitLines (s : String) : List String := (splitOnCh '\n' s.data).map String.mk

/-- JavaScript String.trim modelled over the character list. -/
def trimCh (cs : List Char) : List Char :=
  ((cs.dropWhile isWsCh).reverse.dropWhile isWsCh).reverse

/-- JavaScript String.trim. -/
def jsTrim (s : String) : String := String.mk (trimCh s.data)

/-- ASCII lower-casing of one character, as JavaScript toLowerCase acts on
the ASCII range used by the runtime. -/
def lowerCh (c : Char) : Char :=
  if 65 ≤ c.toNat ∧ c.toNat ≤ 90 then Char.ofNat (c.toNat + 32) else c

/-- JavaScript String.toLowerCase over the ASCII range. -/
def jsToLower (s : String) : String := String.mk (s.data.map lowerCh)

/-- List-of-characters prefix test (helper for startsWith / endsWith). -/
def startsWithCh : List Char → List Char → Bool
  | [], _ => true
  | _ :: _, [] => false
  | p :: ps, c :: cs => p = c && startsWithCh ps cs

/-- JavaScript String.startsWith. -/
def jsStartsWith (s pre : String) : Bool := startsWithCh pre.data s.data

/-- JavaScript String.endsWith. -/
def jsEndsWith (s suf : String) : Bool := startsWithCh suf.data.reverse s.data.reverse

/-- Join a list of strings with a separator; models Array.join. -/
def joinSepCh (sep : String) : List String → String
  | [] => ""
  | h :: t => t.foldl (fun acc x => acc ++ sep ++ x) h

/-- JavaScript Array.slice(-n): the last n elements of a list. -/
def jsSliceLast (l : List α) (n : Nat) : List α := l.drop (l.length - n)

/-- JavaScript `x || d` for numbers: the fallback applies exactly when x
is zero (the only falsy value an Int can take here). -/
def jsOrInt (x d : Int) : Int := if x = 0 then d else x

/-- Whether an Except value is a success. -/
def exceptIsOk : Except ε α → Bool
  | .ok _ => true
  | .error _ => false

/-! ## SHA-256 and SHA-1 (models of node:crypto createHash)

The runtime hashes chunk text with createHash("sha256") and hashes
embedding tokens with createHash("sha1").  Both algorithms are
implemented here over byte lists so that digests can be computed by the
kernel; strings are encoded byte-per-code-point, which agrees with UTF-8
on the ASCII inputs used throughout this development. -/

/-- Truncate to 32 bits. -/
def u32 (x : Nat) : Nat := x % 4294967296

/-- 32-bit rotate right. -/
def rotr32 (n x : Nat) : Nat := u32 ((x >>> n) ||| (x <<< (32 - n)))

/-- 32-bit rotate left. -/
def rotl32 (n x : Nat) : Nat := u32 ((x <<< n) ||| (x >>> (32 - n)))

/-- Big-endian byte expansion of a value into n bytes. -/
def beBytes : Nat → Nat → List Nat
  | 0, _ => []
  | n + 1, v => beBytes n (v / 256) ++ [v % 256]

/-- Big-endian word from a byte list. -/
def beWord (bs : List Nat) : Nat := bs.foldl (fun acc b => acc * 256 + b) 0

/-- Merkle–Damgård padding shared by SHA-1 and SHA-256: append 0x80, zero
bytes to 56 mod 64, then the 64-bit big-endian bit length. -/
def padMessage (msg : List Nat) : List Nat :=
  msg ++ 128 :: List.replicate ((119 - msg.length % 64) % 64) 0 ++ beBytes 8 (msg.length * 8)

/-- The sixteen 32-bit big-endian words of one 64-byte block. -/
def blockWords (blk : List Nat) : List Nat :=
  (List.range 16).map (fun i => beWord ((blk.drop (4 * i)).take 4))

/-- The 64-byte blocks of a padded message. -/
def blocksOf (bs : List Nat) : List (List Nat) :=
  (List.range (bs.length / 64)).map (fun i => (bs.drop (64 * i)).take 64)

def sha256K : List Nat :=
  [1116352408, 1899447441, 3049323471, 3921009573, 961987163,
   1508970993, 2453635748, 2870763221, 3624381080, 310598401,
   607225278, 1426881987, 1925078388, 2162078206, 2614888103,
   3248222580, 3835390401, 4022224774, 264347078, 604807628,
   770255983, 1249150122, 1555081692, 1996064986, 2554220882,
   2821834349, 2952996808, 3210313671, 3336571891, 3584528711,
   113926993, 338241895, 666307205, 773529912, 1294757372,
   1396182291, 1695183700, 1986661051, 2177026350, 2456956037,
   2730485921, 2820302411, 3259730800, 3345764771, 3516065817,
   3600352804, 4094571909, 275423344, 430227734, 506948616,
   659060556, 883997877, 958139571, 1322822218, 1537002063,
   1747873779, 1955562222, 2024104815, 2227730452, 2361852424,
   2428436474, 2756734187, 3204031479, 3329325298]

def sha256Init : List Nat :=
  [1779033703, 3144134277, 1013904242, 2773480762, 1359893119,
   2600822924, 528734635, 1541459225]

def sSigma0 (x : Nat) : Nat := rotr32 7 x ^^^ rotr32 18 x ^^^ (x >>> 3)

def sSigma1 (x : Nat) : Nat := rotr32 17 x ^^^ rotr32 19 x ^^^ (x >>> 10)

def bSigma0 (x : Nat) : Nat := rotr32 2 x ^^^ rotr32 13 x ^^^ rotr32 22 x

def bSigma1 (x : Nat) : Nat := rotr32 6 x ^^^ rotr32 11 x ^^^ rotr32 25 x

/-- SHA-256 message-schedule extension to 64 words. -/
def sha256Extend (w : List Nat) : List Nat :=
  (List.range 48).foldl
    (fun acc _ =>
      let i := acc.length
      let g := fun (k : Nat) => acc.getD (i - k) 0
      acc ++ [u32 (g 16 + sSigma0 (g 15) + g 7 + sSigma1 (g 2))])
    w

/-- One SHA-256 block compression. -/
def sha256Compress (h : List Nat) (blk : List Nat) : List Nat :=
  let w := sha256Extend (blockWords blk)
  let fin := (sha256K.zip w).foldl
    (fun st kw =>
      match st with
      | [a, b, c, d, e, f, g, hh] =>
        let t1 := u32 (hh + bSigma1 e + ((e &&& f) ^^^ ((4294967295 - e) &&& g)) + kw.1 + kw.2)
        let t2 := u32 (bSigma0 a + ((a &&& b) ^^^ (a &&& c) ^^^ (b &&& c)))
        [u32 (t1 + t2), a, b, c, u32 (d + t1), e, f, g]
      | other => other)
    h
  (h.zip fin).map (fun p => u32 (p.1 + p.2))

/-- SHA-256 digest bytes of a byte message. -/
def sha256Bytes (msg : List Nat) : List Nat :=
  ((blocksOf (padMessage msg)).foldl sha256Compress sha256Init).foldr
    (fun h acc => beBytes 4 h ++ acc) []

def sha1Init : List Nat := [1732584193, 4023233417, 2562383102, 271733878, 3285377520]

/-- SHA-1 message-schedule extension to 80 words. -/
def sha1Extend (w : List Nat) : List Nat :=
  (List.range 64).foldl
    (fun acc _ =>
      let i := acc.length
      let g := fun (k : Nat) => acc.getD (i - k) 0
      acc ++ [rotl32 1 (g 3 ^^^ g 8 ^^^ g 14 ^^^ g 16)])
    w

/-- SHA-1 round function. -/
def sha1F (t b c d : Nat) : Nat :=
  if t < 20 then (b &&& c) ||| ((4294967295 - b) &&& d)
  else if t < 40 then b ^^^ c ^^^ d
  else if t < 60 then (b &&& c) ||| (b &&& d) ||| (c &&& d)
  else b ^^^ c ^^^ d

/-- SHA-1 round constants. -/
def sha1KOf (t : Nat) : Nat :=
  if t < 20 then 1518500249
  else if t < 40 then 1859775393
  else if t < 60 then 2400959708
  else 3395469782

/-- One SHA-1 block compression. -/
def sha1Compress (h : List Nat) (blk : List Nat) : List Nat :=
  let w := sha1Extend (blockWords blk)
  let fin := w.enum.foldl
    (fun st tw =>
      match st with
      | [a, b, c, d, e] =>
        [u32 (rotl32 5 a + sha1F tw.1 b c d + e + sha1KOf tw.1 + tw.2), a, rotl32 30 b, c, d]
      | other => other)
    h
  (h.zip fin).map (fun p => u32 (p.1 + p.2))

/-- SHA-1 digest bytes of a byte message. -/
def sha1Bytes (msg : List Nat) : List Nat :=
  ((blocksOf (padMessage msg)).foldl sha1Compress sha1Init).foldr
    (fun h acc => beBytes 4 h ++ acc) []

/-- Lower-case hex digit. -/
def hexDigitChar (n : Nat) : Char :=
  if n < 10 then Char.ofNat (48 + n) else Char.ofNat (87 + n)

/-- Lower-case hex string of a byte list. -/
def bytesToHex (bs : List Nat) : String :=
  String.mk (bs.foldr (fun b acc => hexDigitChar (b / 16) :: hexDigitChar (b % 16) :: acc) [])

/-- Byte encoding of a string, one byte per code point (agrees with the
UTF-8 encoding node:crypto uses on the ASCII inputs in this file). -/
def strBytes (s : String) : List Nat := s.data.map Char.toNat

/-- Hex SHA-256 of a string. -/
def sha256Hex (s : String) : String := bytesToHex (sha256Bytes (strBytes s))

/-- Hex SHA-1 of a string. -/
def sha1Hex (s : String) : String := bytesToHex (sha1Bytes (strBytes s))

/-- hashText from the memory store: crypto.createHash("sha256") hex digest
of the text. -/
def hashText (text : String) : String := sha256Hex text

/-! ## Markdown splitters (memory store, splitMarkdownIntoChunks /
splitMarkdownBySections)

Direct translation of the chunking loop: mutable currentLines /
currentChars / startLine / chunks become a fold state, and the flush
closure becomes splitFlush. -/

/-- One chunk produced by the splitters: line range, text, content hash. -/
structure MdPiece where
  startLine : Nat
  endLine : Nat
  text : String
  hash : String
deriving Repr, DecidableEq

/-- Fold state of splitMarkdownIntoChunks. -/
structure SplitSt where
  chunks : List MdPiece
  cur : List String
  curChars : Nat
  startLine : Nat
deriving Repr

/-- The keep-suffix loop inside flush: collect lines from the end until
their sizes (length + 1 each) reach the overlap budget. -/
def keepSuffixGo (overlap : Nat) : List String → List String → Nat → List String
  | [], acc, _ => acc
  | l :: rest, acc, chars =>
    let chars := chars + l.length + 1
    let acc := l :: acc
    if overlap ≤ chars then acc else keepSuffixGo overlap rest acc chars

/-- Suffix of the current lines kept for chunk overlap. -/
def keepSuffix (overlap : Nat) (cur : List String) : List String :=
  keepSuffixGo overlap cur.reverse [] 0

/-- The text a flush would emit: trimmed join of the current lines. -/
def flushText (st : SplitSt) : String := jsTrim (joinSepCh "\n" st.cur)

/-- The piece a flush emits. -/
def flushPiece (st : SplitSt) : MdPiece :=
  ⟨st.startLine, st.startLine + st.cur.length - 1, flushText st, hashText (flushText st)⟩

/-- The flush closure of splitMarkdownIntoChunks. -/
def splitFlush (overlapChars : Nat) (st : SplitSt) : SplitSt :=
  if st.cur = [] then st
  else if flushText st = "" then { st with cur := [], curChars := 0 }
  else if overlapChars = 0 then
    { st with chunks := st.chunks ++ [flushPiece st], cur := [], curChars := 0 }
  else
    { st with
      chunks := st.chunks ++ [flushPiece st],
      startLine := st.startLine + (st.cur.length - (keepSuffix overlapChars st.cur).length),
      cur := keepSuffix overlapChars st.cur,
      curChars := (keepSuffix overlapChars st.cur).foldl (fun acc l => acc + l.length + 1) 0 }

/-- Reset startLine to the current loop index when no lines are pending. -/
def bumpStart (idx : Nat) (st : SplitSt) : SplitSt :=
  if st.cur = [] then { st with startLine := idx + 1 } else st

/-- Append the current line and account its size. -/
def pushLine (line : String) (st : SplitSt) : SplitSt :=
  { st with cur := st.cur ++ [line], curChars := st.curChars + line.length + 1 }

/-- Loop body of splitMarkdownIntoChunks over one (index, line) pair. -/
def splitStep (maxChars overlapChars : Nat) (st : SplitSt) (p : Nat × String) : SplitSt :=
  pushLine p.2
    (if (bumpStart p.1 st).curChars + (p.2.length + 1) > maxChars ∧ (bumpStart p.1 st).cur ≠ []
     then bumpStart p.1 (splitFlush overlapChars (bumpStart p.1 st))
     else bumpStart p.1 st)

/-- splitMarkdownIntoChunks from the memory store. -/
def splitMarkdownIntoChunks (content : String) (maxChars overlapChars : Nat) : List MdPiece :=
  let lines := jsSplitLines content
  if lines = [] then []
  else (splitFlush overlapChars
    (lines.enum.foldl (splitStep maxChars overlapChars) ⟨[], [], 0, 1⟩)).chunks

/-- Heading test of splitMarkdownBySections: the JS regex for a
second-level heading (two hash marks followed by whitespace). -/
def isHeadingLine (s : String) : Bool :=
  match s.data with
  | '#' :: '#' :: c :: _ => isWsCh c
  | _ => false

/-- The trimmed text of the section spanning lines [start, endExcl). -/
def sectionText (lines : List String) (start endExcl : Nat) : String :=
  jsTrim (joinSepCh "\n" ((lines.drop start).take (endExcl - start)))

/-- The flush closure of splitMarkdownBySections, acting on the pair of
accumulated sections and the mutable start index. -/
def sectionFlush (maxSectionChars : Nat) (lines : List String)
    (st : List MdPiece × Nat) (endExcl : Nat) : List MdPiece × Nat :=
  if endExcl ≤ st.2 then st
  else if sectionText lines st.2 endExcl = "" then (st.1, endExcl)
  else if (sectionText lines st.2 endExcl).length ≤ maxSectionChars then
    (st.1 ++ [⟨st.2 + 1, endExcl, sectionText lines st.2 endExcl,
               hashText (sectionText lines st.2 endExcl)⟩], endExcl)
  else
    (st.1 ++ (splitMarkdownIntoChunks (sectionText lines st.2 endExcl)
        (max 900 (maxSectionChars * 3 / 4)) 120).map
      (fun p => ⟨st.2 + 1 + p.startLine - 1, st.2 + 1 + p.endLine - 1, p.text, p.hash⟩),
     endExcl)

/-- splitMarkdownBySections from the memory store. -/
def splitMarkdownBySections (content : String) (maxSectionChars : Nat) : List MdPiece :=
  let lines := jsSplitLines content
  if lines = [] then []
  else
    let idxs := ((List.range lines.length).filter
      (fun i => 1 ≤ i ∧ isHeadingLine (lines.getD i ""))) ++ [lines.length]
    (idxs.foldl (sectionFlush maxSectionChars lines) ([], 0)).1

/-! ### C8: chunk hashes -/

/-- A piece carries the SHA-256 hash of its own text. -/
def pieceHashOk (p : MdPiece) : Prop := p.hash = hashText p.text

theorem splitFlush_hash (overlapChars : Nat) (st : SplitSt)
    (h : ∀ p ∈ st.chunks, pieceHashOk p) :
    ∀ p ∈ (splitFlush overlapChars st).chunks, pieceHashOk p := by
  unfold splitFlush
  split
  · exact h
  · split
    · exact h
    · split <;>
      · intro p hp
        simp only [List.mem_append, List.mem_singleton] at hp
        rcases hp with hp | hp
        · exact h p hp
        · subst hp; rfl

theorem bumpStart_chunks (idx : Nat) (st : SplitSt) :
    (bumpStart idx st).chunks = st.chunks := by
  unfold bumpStart; split <;> rfl

theorem splitStep_hash (maxChars overlapChars : Nat) (st : SplitSt) (p : Nat × String)
    (h : ∀ q ∈ st.chunks, pieceHashOk q) :
    ∀ q ∈ (splitStep maxChars overlapChars st p).chunks, pieceHashOk q := by
  unfold splitStep pushLine
  dsimp only
  split
  · rw [bumpStart_chunks]
    refine splitFlush_hash overlapChars _ ?_
    rw [bumpStart_chunks]
    exact h
  · rw [bumpStart_chunks]
    exact h

theorem splitFold_hash (maxChars overlapChars : Nat) (l : List (Nat × String)) (st : SplitSt)
    (h : ∀ q ∈ st.chunks, pieceHashOk q) :
    ∀ q ∈ (l.foldl (splitStep maxChars overlapChars) st).chunks, pieceHashOk q := by
  induction l generalizing st with
  | nil => exact h
  | cons x xs ih =>
    exact ih _ (splitStep_hash maxChars overlapChars st x h)

/-- Every chunk of splitMarkdownIntoChunks hashes its own text with
SHA-256. -/
theorem splitMarkdownIntoChunks_hash (content : String) (maxChars overlapChars : Nat) :
    ∀ q ∈ splitMarkdownIntoChunks content maxChars overlapChars, pieceHashOk q := by
  unfold splitMarkdownIntoChunks
  dsimp only
  split
  · intro q hq; cases hq
  · exact splitFlush_hash overlapChars _
      (splitFold_hash maxChars overlapChars _ _ (by intro q hq; cases hq))

theorem sectionFlush_hash (maxSectionChars : Nat) (lines : List String)
    (st : List MdPiece × Nat) (endExcl : Nat)
    (h : ∀ q ∈ st.1, pieceHashOk q) :
    ∀ q ∈ (sectionFlush maxSectionChars lines st endExcl).1, pieceHashOk q := by
  unfold sectionFlush
  split
  · exact h
  · split
    · exact h
    · split
      · intro q hq
        simp only [List.mem_append, List.mem_singleton] at hq
        rcases hq with hq | hq
        · exact h q hq
        · subst hq; rfl
      · intro q hq
        simp only [List.mem_append, List.mem_map] at hq
        rcases hq with hq | ⟨r, hr, hq⟩
        · exact h q hq
        · subst hq
          have := splitMarkdownIntoChunks_hash (sectionText lines st.2 endExcl)
            (max 900 (maxSectionChars * 3 / 4)) 120 r hr
          exact this

/-- Every chunk of splitMarkdownBySections hashes its own text with
SHA-256. -/
theorem splitMarkdownBySections_hash (content : String) (maxSectionChars : Nat) :
    ∀ q ∈ splitMarkdownBySections content maxSectionChars, pieceHashOk q := by
  unfold splitMarkdownBySections
  dsimp only
  split
  · intro q hq; cases hq
  · generalize (((List.range (jsSplitLines content).length).filter
      (fun i => decide (1 ≤ i ∧ isHeadingLine ((jsSplitLines content).getD i "") = true))) ++
      [(jsSplitLines content).length]) = idxs
    have : ∀ (l : List Nat) (st : List MdPiece × Nat), (∀ q ∈ st.1, pieceHashOk q) →
        ∀ q ∈ (l.foldl (sectionFlush maxSectionChars (jsSplitLines content)) st).1,
          pieceHashOk q := by
      intro l
      induction l with
      | nil => intro st h; exact h
      | cons x xs ih =>
        intro st h
        exact ih _ (sectionFlush_hash maxSectionChars (jsSplitLines content) st x h)
    exact this idxs ([], 0) (by intro q hq; cases hq)

/-- C8 (counterexample): the claim says chunk hashes are SHA-1 digests of
the chunk text; on content "x" the single chunk produced by
splitMarkdownIntoChunks has text "x" and a hash that is not the SHA-1
digest of "x" (it is the SHA-256 digest: hashText calls
createHash("sha256")). -/
theorem chunk_hash_not_sha1 :
    (splitMarkdownIntoChunks "x" 1100 180).map (fun p => (p.text, p.hash)) =
      [("x", sha256Hex "x")] ∧
    sha256Hex "x" ≠ sha1Hex "x" := by
  constructor
  · rfl
  · decide

/-- C8 (amended): every chunk produced by either markdown splitter
carries in its hash field the SHA-256 digest (not SHA-1) of the chunk's
text. -/
theorem chunk_hash_is_sha256 (content : String) (maxChars overlapChars maxSectionChars : Nat) :
    (∀ q ∈ splitMarkdownIntoChunks content maxChars overlapChars, q.hash = sha256Hex q.text) ∧
    (∀ q ∈ splitMarkdownBySections content maxSectionChars, q.hash = sha256Hex q.text) :=
  ⟨fun q hq => splitMarkdownIntoChunks_hash content maxChars overlapChars q hq,
   fun q hq => splitMarkdownBySections_hash content maxSectionChars q hq⟩

/-- Witness for C8: the amended theorem applied to content "x" at the
chunk it concretely produces. -/
theorem chunk_hash_is_sha256_witness :
    (⟨1, 1, "x", "2d711642b726b04401627ca9fbac32f5c8530fb1903cc4db02258717921a4881"⟩ : MdPiece).hash
      = sha256Hex "x" :=
  (chunk_hash_is_sha256 "x" 1100 180 2200).1
    ⟨1, 1, "x", "2d711642b726b04401627ca9fbac32f5c8530fb1903cc4db02258717921a4881"⟩
    (by decide)

/-! ## Lane queue (src/runtime/lane-queue.js)

The LaneQueue keeps, per lane key, a promise chain and the counters
depth (entries enqueued but not yet started) and active (entries whose
function is currently executing), plus the global counter totalDepth,
which is incremented on enqueue and decremented when an entry starts.
The model represents the promise chain of a lane as the FIFO list of
continuations not yet run (pending) plus the continuation currently
running (running): chaining on lane.promise means the next continuation
body runs only after the previous one settled, which the start step's
precondition encodes.  Timestamps (updatedAt) are immaterial to the
claims and are omitted.  A ghost event history and a ghost list of
outcomes delivered to enqueue callers are carried along. -/

/-- An enqueued function, identified by id; ok records whether the
function returns normally (false models fn throwing). -/
structure LaneJob where
  id : Nat
  ok : Bool
deriving Repr, DecidableEq

/-- One lane record of the lanes map. -/
structure Lane where
  pending : List LaneJob
  running : Option LaneJob
  depth : Nat
  active : Nat
deriving Repr, DecidableEq

/-- Observable lane events (ghost). -/
inductive LaneEvent where
  | enq (lane : String) (j : LaneJob)
  | start (lane : String) (j : LaneJob)
  | fin (lane : String) (j : LaneJob) (ok : Bool)
deriving Repr, DecidableEq

/-- Whole lane-queue state. -/
structure LQState where
  maxDepth : Nat
  lanes : List (String × Lane)
  totalDepth : Nat
  hist : List LaneEvent
  results : List (Nat × Bool)
deriving Repr, DecidableEq

/-- Association-list lookup (JS Map.get). -/
def alLookup [DecidableEq κ] (l : List (κ × α)) (k : κ) : Option α :=
  match l with
  | [] => none
  | (k', v) :: t => if k' = k then some v else alLookup t k

/-- Association-list update (JS Map.set: replace in place, else append). -/
def alSet [DecidableEq κ] (l : List (κ × α)) (k : κ) (v : α) : List (κ × α) :=
  match l with
  | [] => [(k, v)]
  | (k', v') :: t => if k' = k then (k, v) :: t else (k', v') :: alSet t k v

/-- Association-list removal (JS Map.delete). -/
def alRemove [DecidableEq κ] (l : List (κ × α)) (k : κ) : List (κ × α) :=
  match l with
  | [] => []
  | (k', v') :: t => if k' = k then t else (k', v') :: alRemove t k

/-- String(rawLaneKey || "default"). -/
def normLaneKey (k : String) : String := if k = "" then "default" else k

/-- The overflow error text thrown by enqueue. -/
def overflowMsg (st : LQState) : String :=
  "lane queue overflow: " ++ toString st.totalDepth ++ " >= " ++ toString st.maxDepth

/-- Lane update performed by enqueue: one more pending entry. -/
def enqLaneUpdate (lane : Lane) (j : LaneJob) : Lane :=
  ⟨lane.pending ++ [j], lane.running, lane.depth + 1, lane.active⟩

/-- Lane update performed when the head entry starts. -/
def startLaneUpdate (lane : Lane) (j : LaneJob) (rest : List LaneJob) : Lane :=
  ⟨rest, some j, lane.depth - 1, lane.active + 1⟩

/-- Lane update performed when the running entry settles. -/
def finLaneUpdate (lane : Lane) : Lane :=
  ⟨lane.pending, none, lane.depth, lane.active - 1⟩

/-- LaneQueue.enqueue up to attaching the continuation to the lane chain
(source lines 48-76 plus the chain attachment); fails with the overflow
error exactly as the source does, before touching any state, and on
success increments the lane depth, the total depth, appends the job to
the lane chain and emits the enqueue event. -/
def enqueueFn (st : LQState) (rawKey : String) (j : LaneJob) : Except String LQState :=
  if st.maxDepth ≤ st.totalDepth then .error (overflowMsg st)
  else
    .ok
      { st with
        lanes :=
          alSet st.lanes (normLaneKey rawKey)
            (enqLaneUpdate ((alLookup st.lanes (normLaneKey rawKey)).getD ⟨[], none, 0, 0⟩) j)
        totalDepth := st.totalDepth + 1
        hist := st.hist ++ [.enq (normLaneKey rawKey) j] }

/-- The head of a lane's promise chain begins executing (body of the run
continuation before fn, source lines 78-88): enabled only when the
previous continuation of the lane has settled (running = none) and only
for the oldest pending entry; decrements lane depth and totalDepth
(Math.max 0 clamping is Nat subtraction), increments active. -/
def startFn (st : LQState) (k : String) : Option LQState :=
  match alLookup st.lanes k with
  | none => none
  | some lane =>
    match lane.running, lane.pending with
    | none, j :: rest =>
      some
        { st with
          lanes := alSet st.lanes k (startLaneUpdate lane j rest),
          totalDepth := st.totalDepth - 1,
          hist := st.hist ++ [.start k j] }
    | _, _ => none

/-- fn settles (the finally block, source lines 92-104): decrements
active, emits the end event, removes the lane record when depth and
active are both zero, and delivers the job's outcome — normal return or
thrown exception — to its enqueue caller (lane.promise swallows the
exception, so the chain continues either way). -/
def finFn (st : LQState) (k : String) : Option LQState :=
  match alLookup st.lanes k with
  | none => none
  | some lane =>
    match lane.running with
    | none => none
    | some j =>
      some
        { st with
          lanes :=
            if lane.depth = 0 ∧ lane.active - 1 = 0 then alRemove st.lanes k
            else alSet st.lanes k (finLaneUpdate lane),
          hist := st.hist ++ [.fin k j j.ok],
          results := st.results ++ [(j.id, j.ok)] }

/-- Reachable lane-queue states: constructor clamping maxDepth to at
least 1, then any interleaving of enqueues, starts and finishes. -/
inductive LQReach : LQState → Prop where
  | init (maxDepth : Nat) : LQReach ⟨max 1 maxDepth, [], 0, [], []⟩
  | enq {st st' : LQState} (k : String) (j : LaneJob) :
      LQReach st → enqueueFn st k j = .ok st' → LQReach st'
  | start {st st' : LQState} (k : String) :
      LQReach st → startFn st k = some st' → LQReach st'
  | fin {st st' : LQState} (k : String) :
      LQReach st → finFn st k = some st' → LQReach st'

/-- Replay of the event history: per lane it accepts a start only for
the oldest pending entry and only when nothing of that lane is running,
and accepts a finish only of the running entry.  Success of the replay
is exactly per-lane FIFO order with no overlapping executions. -/
def laneScanStep (m : List (String × Lane)) : LaneEvent → Option (List (String × Lane))
  | .enq k j =>
    some (alSet m k (enqLaneUpdate ((alLookup m k).getD ⟨[], none, 0, 0⟩) j))
  | .start k j =>
    match alLookup m k with
    | none => none
    | some lane =>
      match lane.running, lane.pending with
      | none, j' :: rest =>
        if j' = j then some (alSet m k (startLaneUpdate lane j rest)) else none
      | _, _ => none
  | .fin k j _ =>
    match alLookup m k with
    | none => none
    | some lane =>
      match lane.running with
      | none => none
      | some j' =>
        if j' = j then
          some
            (if lane.depth = 0 ∧ lane.active - 1 = 0 then alRemove m k
             else alSet m k (finLaneUpdate lane))
        else none

/-- Replay a whole history from the empty lanes map. -/
def laneScanHist (hist : List LaneEvent) : Option (List (String × Lane)) :=
  hist.foldl (fun acc ev => acc.bind (fun m => laneScanStep m ev)) (some [])

/-- The outcomes a history delivers to enqueue callers. -/
def finResults (hist : List LaneEvent) : List (Nat × Bool) :=
  hist.filterMap (fun ev =>
    match ev with
    | .fin _ j ok => some (j.id, ok)
    | _ => none)

/-- Lane well-formedness: counters agree with the chain, and a present
lane always has work (pending or running). -/
def laneWf (lane : Lane) : Prop :=
  lane.depth = lane.pending.length ∧
  lane.active = (if lane.running.isSome then 1 else 0) ∧
  (lane.pending ≠ [] ∨ lane.running.isSome = true)

theorem mem_alSet [DecidableEq κ] {l : List (κ × α)} {k : κ} {v : α} {p : κ × α}
    (h : p ∈ alSet l k v) : p = (k, v) ∨ p ∈ l := by
  induction l with
  | nil =>
    simp only [alSet, List.mem_singleton] at h
    exact Or.inl h
  | cons q t ih =>
    simp only [alSet] at h
    split at h
    · rcases List.mem_cons.mp h with h | h
      · exact Or.inl h
      · exact Or.inr (List.mem_cons_of_mem _ h)
    · rcases List.mem_cons.mp h with h | h
      · exact Or.inr (h ▸ List.mem_cons_self _ _)
      · rcases ih h with h | h
        · exact Or.inl h
        · exact Or.inr (List.mem_cons_of_mem _ h)

theorem mem_alRemove [DecidableEq κ] {l : List (κ × α)} {k : κ} {p : κ × α}
    (h : p ∈ alRemove l k) : p ∈ l := by
  induction l with
  | nil => simp [alRemove] at h
  | cons q t ih =>
    simp only [alRemove] at h
    split at h
    · exact List.mem_cons_of_mem _ h
    · rcases List.mem_cons.mp h with h | h
      · exact h ▸ List.mem_cons_self _ _
      · exact List.mem_cons_of_mem _ (ih h)

theorem alLookup_mem [DecidableEq κ] {l : List (κ × α)} {k : κ} {v : α}
    (h : alLookup l k = some v) : (k, v) ∈ l := by
  induction l with
  | nil => simp [alLookup] at h
  | cons q t ih =>
    simp only [alLookup] at h
    split at h
    · rename_i hk
      cases h
      exact hk ▸ List.mem_cons_self _ _
    · exact List.mem_cons_of_mem _ (ih h)

theorem laneScanHist_append (h : List LaneEvent) (ev : LaneEvent) :
    laneScanHist (h ++ [ev]) =
      (laneScanHist h).bind (fun m => laneScanStep m ev) := by
  simp [laneScanHist, List.foldl_append]

theorem finResults_append (h : List LaneEvent) (ev : LaneEvent) :
    finResults (h ++ [ev]) = finResults h ++ finResults [ev] := by
  simp [finResults]

/-- Inversion of a successful enqueue. -/
theorem enqueueFn_ok {st st' : LQState} {k : String} {j : LaneJob}
    (h : enqueueFn st k j = .ok st') :
    st.totalDepth < st.maxDepth ∧
    st' =
      { st with
        lanes :=
          alSet st.lanes (normLaneKey k)
            (enqLaneUpdate ((alLookup st.lanes (normLaneKey k)).getD ⟨[], none, 0, 0⟩) j)
        totalDepth := st.totalDepth + 1
        hist := st.hist ++ [.enq (normLaneKey k) j] } := by
  unfold enqueueFn at h
  split at h
  · cases h
  · rename_i hd
    cases h
    exact ⟨by omega, rfl⟩

/-- Inversion of a successful start step. -/
theorem startFn_some {st st' : LQState} {k : String}
    (h : startFn st k = some st') :
    ∃ lane j rest, alLookup st.lanes k = some lane ∧ lane.running = none ∧
      lane.pending = j :: rest ∧
      st' =
        { st with
          lanes := alSet st.lanes k (startLaneUpdate lane j rest),
          totalDepth := st.totalDepth - 1,
          hist := st.hist ++ [.start k j] } := by
  unfold startFn at h
  cases hl : alLookup st.lanes k with
  | none => rw [hl] at h; cases h
  | some lane =>
    rw [hl] at h
    dsimp only at h
    cases hr : lane.running with
    | some _ =>
      rw [hr] at h
      cases lane.pending <;> cases h
    | none =>
      rw [hr] at h
      cases hp : lane.pending with
      | nil => rw [hp] at h; cases h
      | cons j rest =>
        rw [hp] at h
        dsimp only at h
        cases h
        exact ⟨lane, j, rest, rfl, hr, hp, rfl⟩

/-- Inversion of a successful finish step. -/
theorem finFn_some {st st' : LQState} {k : String}
    (h : finFn st k = some st') :
    ∃ lane j, alLookup st.lanes k = some lane ∧ lane.running = some j ∧
      st' =
        { st with
          lanes :=
            if lane.depth = 0 ∧ lane.active - 1 = 0 then alRemove st.lanes k
            else alSet st.lanes k (finLaneUpdate lane),
          hist := st.hist ++ [.fin k j j.ok],
          results := st.results ++ [(j.id, j.ok)] } := by
  unfold finFn at h
  cases hl : alLookup st.lanes k with
  | none => rw [hl] at h; cases h
  | some lane =>
    rw [hl] at h
    dsimp only at h
    cases hr : lane.running with
    | none => rw [hr] at h; cases h
    | some j =>
      rw [hr] at h
      dsimp only at h
      cases h
      exact ⟨lane, j, rfl, hr, rfl⟩

/-- The combined reachability invariant of the lane queue: the event
history replays successfully onto the current lanes map (per-lane FIFO
start order, no overlap), results are exactly the finish outcomes, and
every present lane is well formed. -/
theorem lane_queue_inv {st : LQState} (h : LQReach st) :
    laneScanHist st.hist = some st.lanes ∧
    st.results = finResults st.hist ∧
    ∀ p ∈ st.lanes, laneWf p.2 := by
  induction h with
  | init maxDepth => exact ⟨rfl, rfl, by intro p hp; cases hp⟩
  | @enq st0 st1 k j _ hok ih =>
    obtain ⟨hscan, hres, hwf⟩ := ih
    obtain ⟨_, hst⟩ := enqueueFn_ok hok
    subst hst
    refine ⟨?_, ?_, ?_⟩
    · rw [laneScanHist_append, hscan]
      rfl
    · rw [finResults_append]
      simpa [finResults] using hres
    · intro p hp
      rcases mem_alSet hp with hp | hp
      · rw [hp]
        rcases hl : alLookup st0.lanes (normLaneKey k) with _ | lane
        · simp [laneWf, enqLaneUpdate]
        · obtain ⟨h1, h2, _⟩ := hwf _ (alLookup_mem hl)
          dsimp only at h1 h2
          simp [laneWf, enqLaneUpdate, h1, h2]
      · exact hwf p hp
  | @start st0 st1 k _ hok ih =>
    obtain ⟨hscan, hres, hwf⟩ := ih
    obtain ⟨lane, j, rest, hl, hr, hp, hst⟩ := startFn_some hok
    subst hst
    refine ⟨?_, ?_, ?_⟩
    · rw [laneScanHist_append, hscan]
      simp [laneScanStep, hl, hr, hp]
    · rw [finResults_append]
      simpa [finResults] using hres
    · intro p hq
      rcases mem_alSet hq with hq | hq
      · rw [hq]
        obtain ⟨h1, h2, _⟩ := hwf _ (alLookup_mem hl)
        dsimp only at h1 h2
        refine ⟨?_, ?_, ?_⟩
        · show lane.depth - 1 = rest.length
          rw [h1, hp]
          simp
        · show lane.active + 1 = _
          rw [h2, hr]
          rfl
        · show rest ≠ [] ∨ (some j).isSome = true
          simp [startLaneUpdate]
      · exact hwf p hq
  | @fin st0 st1 k _ hok ih =>
    obtain ⟨hscan, hres, hwf⟩ := ih
    obtain ⟨lane, j, hl, hr, hst⟩ := finFn_some hok
    subst hst
    refine ⟨?_, ?_, ?_⟩
    · rw [laneScanHist_append, hscan]
      simp [laneScanStep, hl, hr]
    · rw [finResults_append]
      simp [finResults, hres]
    · intro p hq
      dsimp only at hq
      split at hq
      · exact hwf p (mem_alRemove hq)
      · rename_i hcond
        rcases mem_alSet hq with hq | hq
        · rw [hq]
          obtain ⟨h1, h2, _⟩ := hwf _ (alLookup_mem hl)
          dsimp only at h1 h2
          refine ⟨by simp [finLaneUpdate, h1], by simp [finLaneUpdate, h2, hr], ?_⟩
          refine Or.inl ?_
          intro hnil
          dsimp only [finLaneUpdate] at hnil
          apply hcond
          constructor
          · rw [h1, hnil]
            rfl
          · rw [h2, hr]
            rfl
        · exact hwf p hq

/-- The quantity the C2 claim calls the global pending+active depth:
entries enqueued and not yet finished. -/
def globalPendingActive (st : LQState) : Nat :=
  st.totalDepth + st.lanes.foldl (fun a p => a + p.2.active) 0

/-- Concrete lane-queue run used below: maxDepth 1, one job enqueued on
lane "A" and started (its function still executing). -/
def lqJob1 : LaneJob := ⟨1, true⟩

def lqJob2 : LaneJob := ⟨2, false⟩

def lqS0 : LQState := ⟨max 1 1, [], 0, [], []⟩

def lqS1 : LQState := ⟨1, [("A", ⟨[lqJob1], none, 1, 0⟩)], 1, [.enq "A" lqJob1], []⟩

def lqS2 : LQState :=
  ⟨1, [("A", ⟨[], some lqJob1, 0, 1⟩)], 0, [.enq "A" lqJob1, .start "A" lqJob1], []⟩

/-- C2 (counterexample): the claim says enqueue throws exactly when the
global pending+active depth reaches maxDepth at the moment of the call.
Run a queue with maxDepth 1: enqueue one job on lane "A" and let it
start.  While it is still running, the pending+active depth is 1 and
equals maxDepth, yet a second enqueue on the same lane is accepted —
the counter the code compares (totalDepth) was decremented when the
first job started, so it counts pending entries only. -/
theorem lane_queue_overflow_claim_counterexample :
    enqueueFn lqS0 "A" lqJob1 = .ok lqS1 ∧
    startFn lqS1 "A" = some lqS2 ∧
    lqS2.maxDepth ≤ globalPendingActive lqS2 ∧
    exceptIsOk (enqueueFn lqS2 "A" lqJob2) = true := by
  refine ⟨by rfl, by rfl, by decide, by rfl⟩

/-- C2 (amended): enqueue(laneKey, fn) throws the overflow error exactly
when the number of enqueued-but-not-yet-started entries (the totalDepth
counter, which excludes entries whose function is already executing) is
at least maxDepth at the moment of the call; otherwise the call is
accepted.  In the failing case the function returns the error before
touching any lane counter, the global counter, the lanes map or the
event history (enqueueFn yields no successor state at all), so nothing
is changed and no event is emitted. -/
theorem lane_queue_overflow_exact (st : LQState) (k : String) (j : LaneJob) :
    (exceptIsOk (enqueueFn st k j) = true ↔ st.totalDepth < st.maxDepth) ∧
    (st.maxDepth ≤ st.totalDepth ↔ enqueueFn st k j = .error (overflowMsg st)) := by
  unfold enqueueFn
  by_cases h : st.maxDepth ≤ st.totalDepth
  · rw [if_pos h]
    refine ⟨?_, ?_⟩
    · simp [exceptIsOk]
      omega
    · simp [h]
  · rw [if_neg h]
    refine ⟨?_, ?_⟩
    · simp [exceptIsOk]
      omega
    · constructor
      · intro hc
        exact absurd hc h
      · intro hc
        exact Except.noConfusion hc

/-- C3: in every reachable lane-queue state, (a) the event history
replays successfully against the lanes map, meaning every started entry
was the oldest pending entry of its lane with nothing of that lane
running — strict serial execution in submission order with no overlap;
(b) the recorded results are exactly the finish outcomes, i.e. each
function's normal return or thrown exception is delivered to its own
enqueue caller; (c) a thrown exception does not block the lane: whenever
a lane still has pending entries and nothing running, the start step is
enabled regardless of earlier outcomes; and (d) no lane record with
depth and active both zero is ever present — the record is removed as
soon as both reach zero. -/
theorem lane_queue_serial_fifo (st : LQState) (h : LQReach st) :
    laneScanHist st.hist = some st.lanes ∧
    st.results = finResults st.hist ∧
    (∀ k lane, alLookup st.lanes k = some lane → lane.running = none →
      lane.pending ≠ [] → (startFn st k).isSome = true) ∧
    (∀ p ∈ st.lanes, ¬(p.2.depth = 0 ∧ p.2.active = 0)) := by
  obtain ⟨hscan, hres, hwf⟩ := lane_queue_inv h
  refine ⟨hscan, hres, ?_, ?_⟩
  · intro k lane hl hr hp
    unfold startFn
    rw [hl]
    dsimp only
    rw [hr]
    cases hpend : lane.pending with
    | nil => exact absurd hpend hp
    | cons j rest => rfl
  · intro p hp hzero
    obtain ⟨h1, h2, h3⟩ := hwf p hp
    rcases hzero with ⟨hd, ha⟩
    rcases h3 with h3 | h3
    · apply h3
      apply List.length_eq_zero.mp
      rw [← h1]
      exact hd
    · rw [h3] at h2
      simp at h2
      omega

/-- Witness for C3: the invariant applied to the concrete reachable
state lqS2 built by one enqueue and one start. -/
theorem lane_queue_serial_fifo_witness :
    laneScanHist lqS2.hist = some lqS2.lanes :=
  (lane_queue_serial_fifo lqS2
    (@LQReach.start lqS1 lqS2 "A"
      (@LQReach.enq lqS0 lqS1 "A" lqJob1 (LQReach.init 1) (by rfl)) (by rfl))).1

/-! ## Background task manager (src/tasks/background-manager.js)

Two focused models: a per-task state machine for the retry behaviour of
a command task (C1), and a status automaton for a schedule task (C6).

For C1, launchTaskNow (lines 388-419) marks the task running and
increments attempts, and the close handler (lines 460-523) for a
non-zero exit either re-enqueues the task (when attempts <= maxRetries
and the status is not stopped) with retryAt = Date.now() +
Math.max(250, Number(task.retryDelayMs || defaultRetryDelayMs)), or
marks it failed.  The trace relation below admits exactly the events of
the claim's premise: launches (from the dispatch queue, which only
launches queued tasks) and closes with a non-zero exit code, with no
stop, cancel or timeout, so status is running at every close. -/

inductive TStatus where
  | queued | running | completed | failed | cancelled | stopped
deriving Repr, DecidableEq

/-- The fields of a command task relevant to retry behaviour, plus the
ghost list of (close time, retryAt) pairs of every re-enqueue. -/
structure CmdTask where
  status : TStatus
  attempts : Nat
  maxRetries : Nat
  retryDelayMs : Int
  exitCode : Option Int
  inQueue : Bool
  requeues : List (Int × Int)
deriving Repr, DecidableEq

/-- A fresh command task as created by createTaskBase with maxRetries k
and retryDelayMs delay, queued for its first launch. -/
def mkCommandTask (k : Nat) (delay : Int) : CmdTask :=
  ⟨.queued, 0, k, delay, none, true, []⟩

/-- launchTaskNow lines 388-395: status running, attempts + 1, exit
fields reset; the queue item was consumed by dispatchPending. -/
def launchStep (t : CmdTask) : CmdTask :=
  { t with status := .running, attempts := t.attempts + 1, exitCode := none, inQueue := false }

/-- The close handler lines 470-519 for a non-zero exit code while the
status is running (never stopped or cancelled under the claim's
premise): re-enqueue with the floored retry delay when attempts <=
maxRetries, else mark failed. -/
def closeStep (d : Int) (now code : Int) (t : CmdTask) : CmdTask :=
  if t.attempts ≤ t.maxRetries then
    { t with status := .queued, exitCode := some code, inQueue := true,
             requeues := t.requeues ++ [(now, now + max 250 (jsOrInt t.retryDelayMs d))] }
  else
    { t with status := .failed, exitCode := some code }

inductive CmdEv where
  | launch
  | closeEv (now : Int) (code : Int)
deriving Repr, DecidableEq

/-- Number of launches in an event list. -/
def launchCount (evs : List CmdEv) : Nat :=
  (evs.filter (fun e => match e with | .launch => true | _ => false)).length

/-- Executions of one command task under the claim's premise: the
dispatch loop launches the task only while it sits in the queue with
status queued, and every run closes with a non-zero exit code. -/
inductive CmdTrace (d : Int) : CmdTask → List CmdEv → CmdTask → Prop where
  | nil (t : CmdTask) : CmdTrace d t [] t
  | launch {t t' : CmdTask} {evs : List CmdEv} :
      t.inQueue = true → t.status = .queued →
      CmdTrace d (launchStep t) evs t' → CmdTrace d t (.launch :: evs) t'
  | close {t t' : CmdTask} {evs : List CmdEv} (now code : Int) :
      t.status = .running → code ≠ 0 →
      CmdTrace d (closeStep d now code t) evs t' → CmdTrace d t (.closeEv now code :: evs) t'

theorem closeStep_pos (d now code : Int) (t : CmdTask) (h : t.attempts ≤ t.maxRetries) :
    closeStep d now code t =
      { t with status := .queued, exitCode := some code, inQueue := true,
               requeues := t.requeues ++ [(now, now + max 250 (jsOrInt t.retryDelayMs d))] } := by
  unfold closeStep
  rw [if_pos h]

theorem closeStep_neg (d now code : Int) (t : CmdTask) (h : ¬t.attempts ≤ t.maxRetries) :
    closeStep d now code t = { t with status := .failed, exitCode := some code } := by
  unfold closeStep
  rw [if_neg h]

theorem launchCount_cons_launch (evs : List CmdEv) :
    launchCount (.launch :: evs) = launchCount evs + 1 := by
  simp [launchCount]

theorem launchCount_cons_close (now code : Int) (evs : List CmdEv) :
    launchCount (.closeEv now code :: evs) = launchCount evs := by
  simp [launchCount]

theorem cmd_trace_inv (d : Int) (k : Nat) (delay : Int) (hd : (250 : Int) ≤ delay) :
    ∀ {t : CmdTask} {evs : List CmdEv} {t' : CmdTask}, CmdTrace d t evs t' →
    t.maxRetries = k → t.retryDelayMs = delay →
    t.attempts ≤ k + 1 →
    (t.inQueue = true → t.attempts ≤ k) →
    (t.status = .failed → k < t.attempts) →
    (∀ r ∈ t.requeues, r.2 = r.1 + max 250 delay) →
    t'.attempts = t.attempts + launchCount evs ∧
    t'.attempts ≤ k + 1 ∧
    (t'.status = .failed → k < t'.attempts) ∧
    (∀ r ∈ t'.requeues, r.2 = r.1 + max 250 delay) := by
  intro t evs t' h
  induction h with
  | nil t =>
    intro _ _ h3 _ h5 h6
    exact ⟨by simp [launchCount], h3, h5, h6⟩
  | @launch t0 t1 evs0 hq hs _ ih =>
    intro h1 h2 h3 h4 h5 h6
    have hle : t0.attempts ≤ k := h4 hq
    obtain ⟨i1, i2, i3, i4⟩ := ih h1 h2 (by show t0.attempts + 1 ≤ k + 1; omega)
      (fun hqq => nomatch hqq) (fun hf => nomatch hf) h6
    refine ⟨?_, i2, i3, i4⟩
    rw [i1, launchCount_cons_launch]
    show t0.attempts + 1 + launchCount evs0 = t0.attempts + (launchCount evs0 + 1)
    omega
  | @close t0 t1 evs0 now code hs hc _ ih =>
    intro h1 h2 h3 h4 h5 h6
    by_cases hcr : t0.attempts ≤ k
    · rw [closeStep_pos d now code t0 (by rw [h1]; exact hcr)] at ih
      have hreq : ∀ r ∈ t0.requeues ++ [(now, now + max 250 (jsOrInt t0.retryDelayMs d))],
          r.2 = r.1 + max 250 delay := by
        intro r hr
        rcases List.mem_append.mp hr with hr | hr
        · exact h6 r hr
        · rw [List.mem_singleton.mp hr]
          show now + max 250 (jsOrInt t0.retryDelayMs d) = now + max 250 delay
          rw [h2]
          unfold jsOrInt
          rw [if_neg (by omega)]
      obtain ⟨i1, i2, i3, i4⟩ := ih h1 h2 h3 (fun _ => hcr) (fun hf => nomatch hf) hreq
      refine ⟨?_, i2, i3, i4⟩
      rw [i1, launchCount_cons_close]
    · rw [closeStep_neg d now code t0 (by rw [h1]; exact hcr)] at ih
      obtain ⟨i1, i2, i3, i4⟩ := ih h1 h2 h3 h4 (fun _ => by show k < t0.attempts; omega) h6
      refine ⟨?_, i2, i3, i4⟩
      rw [i1, launchCount_cons_close]

/-- C1: a command task created with maxRetries = k whose runs all exit
non-zero and which is never stopped or cancelled is launched at most
k + 1 times; attempts equals the number of launches performed so far
(the trace relation is prefix-closed, so the final-state equality below
holds after every launch); the status is failed only once attempts
exceeds k; and every re-enqueue records retryAt equal to the close time
plus max(250, retryDelayMs).  retryDelayMs is constrained to the
runCommand input range 250..3600000 stated by the spec (the tool schema
enforces minimum 250); the hypothesis 250 <= delay reflects that. -/
theorem command_retry_correct (k : Nat) (delay d : Int) (evs : List CmdEv) (t' : CmdTask)
    (hdelay : (250 : Int) ≤ delay)
    (h : CmdTrace d (mkCommandTask k delay) evs t') :
    launchCount evs ≤ k + 1 ∧
    t'.attempts = launchCount evs ∧
    (t'.status = .failed → k < t'.attempts) ∧
    (∀ r ∈ t'.requeues, r.2 = r.1 + max 250 delay) := by
  obtain ⟨i1, i2, i3, i4⟩ := cmd_trace_inv d k delay hdelay h rfl rfl (by simp [mkCommandTask])
    (by simp [mkCommandTask]) (by simp [mkCommandTask]) (by simp [mkCommandTask])
  simp only [mkCommandTask] at i1
  refine ⟨?_, by simpa using i1, i3, i4⟩
  omega

/-- Witness for C1: maxRetries 1, retryDelayMs 500; two failing runs.
The task ends failed with attempts = 2 and one re-enqueue at
1000 + 500. -/
theorem command_retry_correct_witness :
    launchCount [CmdEv.launch, .closeEv 1000 7, .launch, .closeEv 2000 7] ≤ 2 ∧
    (⟨.failed, 2, 1, 500, some 7, false, [(1000, 1500)]⟩ : CmdTask).attempts =
      launchCount [CmdEv.launch, .closeEv 1000 7, .launch, .closeEv 2000 7] ∧
    ((⟨.failed, 2, 1, 500, some 7, false, [(1000, 1500)]⟩ : CmdTask).status = .failed →
      1 < (⟨.failed, 2, 1, 500, some 7, false, [(1000, 1500)]⟩ : CmdTask).attempts) ∧
    (∀ r ∈ (⟨.failed, 2, 1, 500, some 7, false, [(1000, 1500)]⟩ : CmdTask).requeues,
      r.2 = r.1 + max 250 500) :=
  command_retry_correct 1 500 5000 [CmdEv.launch, .closeEv 1000 7, .launch, .closeEv 2000 7]
    ⟨.failed, 2, 1, 500, some 7, false, [(1000, 1500)]⟩
    (by decide)
    (CmdTrace.launch rfl rfl
      (CmdTrace.close 1000 7 rfl (by decide)
        (CmdTrace.launch rfl rfl
          (CmdTrace.close 2000 7 rfl (by decide)
            (CmdTrace.nil _)))))

/-! ### C6: schedule task statuses

All sites of background-manager.js that can assign the status of a task
of type schedule: scheduleCommand creates it with status running and a
repeating timer (createTaskBase line 265, startScheduler); init lines
59-64 force every non-cancelled schedule to running and reinstall its
timer; stop lines 724-754 clears the timer and sets cancelled; shutdown
lines 771-782 clears each installed timer and flips a running schedule
to stopped.  No other path touches a schedule's status: the dispatch
queue and the close/error/timeout handlers only act on tasks launched
via launchTaskNow, and only command tasks are ever enqueued (init
enqueues only type command, runCommand creates type command, retry
re-enqueues a launched task); pruneTasks never rewrites a status. -/

/-- Schedule-task state: its status and whether its repeating timer is
installed. -/
structure SchedTask where
  status : TStatus
  hasTimer : Bool
deriving Repr, DecidableEq

/-- Task-manager operations that can touch a schedule task. -/
inductive SchedOp where
  | initOp | stopOp | shutdownOp
deriving Repr, DecidableEq

/-- A schedule task as created by scheduleCommand. -/
def mkScheduleTask : SchedTask := ⟨.running, true⟩

/-- Effect of one operation on a schedule task. -/
def applySchedOp (t : SchedTask) : SchedOp → SchedTask
  | .initOp => if t.status = .cancelled then ⟨.cancelled, false⟩ else ⟨.running, true⟩
  | .stopOp => ⟨.cancelled, false⟩
  | .shutdownOp =>
    if t.hasTimer then ⟨if t.status = .running then .stopped else t.status, false⟩ else t

/-- The schedule task after a sequence of operations. -/
def runSchedOps (ops : List SchedOp) : SchedTask :=
  ops.foldl applySchedOp mkScheduleTask

/-- C6 (counterexample): shutting the manager down flips a running
schedule to stopped (background-manager.js lines 777-781), so a
schedule task does reach the terminal status stopped, contradicting the
claim that cancelled is the only terminal status it can reach. -/
theorem schedule_stopped_on_shutdown_counterexample :
    (runSchedOps [.shutdownOp]).status = .stopped := by decide

theorem schedule_status_closed (t : SchedTask)
    (h : t.status = .running ∨ t.status = .cancelled ∨ t.status = .stopped) (op : SchedOp) :
    (applySchedOp t op).status = .running ∨ (applySchedOp t op).status = .cancelled ∨
      (applySchedOp t op).status = .stopped := by
  rcases h with h | h | h <;> cases op <;>
    by_cases ht : t.hasTimer <;> simp [applySchedOp, h, ht]

/-- C6 (amended): under every sequence of task-manager operations a
schedule task's status stays in the set running / cancelled / stopped;
it never becomes completed or failed.  It can become stopped, but only
through shutdown (undone by the next init, which returns every
non-cancelled schedule to running). -/
theorem schedule_never_completed_or_failed (ops : List SchedOp) :
    (runSchedOps ops).status ≠ .completed ∧ (runSchedOps ops).status ≠ .failed := by
  have main : ∀ (l : List SchedOp) (t : SchedTask),
      (t.status = .running ∨ t.status = .cancelled ∨ t.status = .stopped) →
      ((l.foldl applySchedOp t).status = .running ∨
       (l.foldl applySchedOp t).status = .cancelled ∨
       (l.foldl applySchedOp t).status = .stopped) := by
    intro l
    induction l with
    | nil => intro t h; exact h
    | cons op rest ih =>
      intro t h
      exact ih _ (schedule_status_closed t h op)
  have := main ops mkScheduleTask (by simp [mkScheduleTask])
  rcases this with h | h | h <;> rw [runSchedOps] at * <;> constructor <;> simp [h]

/-! ## Autonomous loop (AutonomousLoop in the source)

The tick body runs to completion between suspensions of the single
event loop; it is modelled as one atomic function from the loop state
and an environment (runtime busy flag, queue depth, task health,
orchestrator outcome) to the next state plus a trace recording which
collaborator calls were made (objectiveQueue.expireStale,
pickForAutonomous, runtime.handleIncoming) and which events were
emitted. -/

structure AutoCfg where
  enabled : Bool
  goal : String
  intervalMs : Int
  skipWhenQueueAbove : Int
  maxConsecutiveFailures : Int
  stalePendingHours : Int
  staleInProgressIdleHours : Int
deriving Repr, DecidableEq

structure ALState where
  cfg : AutoCfg
  timerOn : Bool
  running : Bool
  lastTickAt : Option Int
  lastError : Option String
  consecutiveFailures : Nat
  totalTicks : Nat
  skippedTicks : Nat
  disabledReason : Option String
deriving Repr, DecidableEq

/-- Environment of one tick: what the runtime and objective queue would
answer during it. -/
structure TickEnv where
  runtimeBusy : Bool
  queueDepth : Int
  healthPresent : Bool
  healthQueueDepth : Int
  healthFailedRecent : Int
  maxConcurrentTasks : Int
  staleChangedCount : Nat
  reply : Except String String
  nowMs : Int
deriving Repr

/-- Which collaborator calls a tick performed, and the emitted events. -/
structure TickTrace where
  expireCalled : Bool
  pickCalled : Bool
  orchestratorCalled : Bool
  events : List String
deriving Repr, DecidableEq

/-- getMaxConsecutiveFailures: Math.max(1, toNumber(cfg, 5)). -/
def maxFailuresOf (cfg : AutoCfg) : Int := max 1 cfg.maxConsecutiveFailures

/-- shouldSkipForQueuePressure. -/
def skipForQueuePressure (cfg : AutoCfg) (env : TickEnv) : Bool :=
  if cfg.skipWhenQueueAbove < 0 then false else env.queueDepth > cfg.skipWhenQueueAbove

/-- getTaskPressure's skip decision. -/
def taskPressureSkip (env : TickEnv) : Bool :=
  if ¬env.healthPresent then false
  else
    let maxConcurrent := max 1 env.maxConcurrentTasks
    if env.healthQueueDepth > maxConcurrent * 3 then true
    else if env.healthFailedRecent > max 6 maxConcurrent then true
    else false

/-- A tick outcome counts as a failure when handleIncoming throws or
returns a string starting with "Runtime error:". -/
def tickFails (env : TickEnv) : Bool :=
  match env.reply with
  | .error _ => true
  | .ok r => jsStartsWith r "Runtime error:"

def tickErrText (env : TickEnv) : String :=
  match env.reply with
  | .error e => e
  | .ok r => r

/-- The disabledReason text set by the circuit breaker. -/
def disabledMsg (cf : Nat) : String :=
  "disabled after " ++ toString cf ++ " consecutive failures"

/-- AutonomousLoop.tick. -/
def tick (env : TickEnv) (st : ALState) : ALState × TickTrace :=
  if ¬st.cfg.enabled then (st, ⟨false, false, false, []⟩)
  else if st.disabledReason.isSome then
    ({ st with skippedTicks := st.skippedTicks + 1 },
     ⟨false, false, false, ["autonomous.tick.skip"]⟩)
  else if st.running || env.runtimeBusy then
    ({ st with skippedTicks := st.skippedTicks + 1 },
     ⟨false, false, false, ["autonomous.tick.skip"]⟩)
  else if skipForQueuePressure st.cfg env then
    ({ st with skippedTicks := st.skippedTicks + 1 },
     ⟨false, false, false, ["autonomous.tick.skip"]⟩)
  else if taskPressureSkip env then
    ({ st with skippedTicks := st.skippedTicks + 1 },
     ⟨false, false, false, ["autonomous.tick.skip"]⟩)
  else
    let staleEvs := if env.staleChangedCount > 0 then ["autonomous.objective.stale_pruned"] else []
    if tickFails env then
      ({ st with
          lastTickAt := some env.nowMs,
          totalTicks := st.totalTicks + 1,
          running := false,
          lastError := some (tickErrText env),
          consecutiveFailures := st.consecutiveFailures + 1,
          disabledReason :=
            if maxFailuresOf st.cfg ≤ (st.consecutiveFailures + 1 : Int) then
              some (disabledMsg (st.consecutiveFailures + 1))
            else st.disabledReason },
       ⟨true, true, true,
        ["autonomous.tick.start"] ++ staleEvs ++ ["autonomous.tick.error"] ++
          (if maxFailuresOf st.cfg ≤ (st.consecutiveFailures + 1 : Int) then
            ["autonomous.loop.disabled"] else []) ++ ["autonomous.tick.end"]⟩)
    else
      ({ st with
          lastTickAt := some env.nowMs,
          totalTicks := st.totalTicks + 1,
          running := false,
          lastError := none,
          consecutiveFailures := 0 },
       ⟨true, true, true,
        ["autonomous.tick.start"] ++ staleEvs ++
          ["autonomous.tick.success", "autonomous.tick.end"]⟩)

/-- The typeof-guarded patch object accepted by applyConfig. -/
structure ALPatch where
  enabledQ : Option Bool
  goalQ : Option String
  intervalQ : Option Int
  skipQ : Option Int
  maxFailQ : Option Int
  stalePQ : Option Int
  staleIQ : Option Int
deriving Repr, DecidableEq

/-- The config-field assignments of applyConfig (lines 378-398). -/
def updateCfg (next : ALPatch) (c : AutoCfg) : AutoCfg :=
  { c with
    enabled := next.enabledQ.getD c.enabled,
    goal := (next.goalQ.map jsTrim).getD c.goal,
    intervalMs := (next.intervalQ.map (fun v => max 5000 v)).getD c.intervalMs,
    skipWhenQueueAbove := (next.skipQ.map (fun v => max 0 v)).getD c.skipWhenQueueAbove,
    maxConsecutiveFailures := (next.maxFailQ.map (fun v => max 1 v)).getD c.maxConsecutiveFailures,
    stalePendingHours := (next.stalePQ.map (fun v => max 1 v)).getD c.stalePendingHours,
    staleInProgressIdleHours :=
      (next.staleIQ.map (fun v => max 1 v)).getD c.staleInProgressIdleHours }

/-- AutonomousLoop.applyConfig (lines 374-423).  When the merged config
is disabled it stops the timer and returns with disabledReason
untouched; when enabled it clears disabledReason, resets the failure
counter on a disabled-to-enabled transition, and (re)starts the timer. -/
def applyConfig (next : ALPatch) (st : ALState) : ALState :=
  if ¬(updateCfg next st.cfg).enabled then
    { st with cfg := updateCfg next st.cfg, timerOn := false }
  else if ¬st.cfg.enabled then
    { st with cfg := updateCfg next st.cfg, disabledReason := none,
              consecutiveFailures := 0, lastError := none, timerOn := true }
  else
    { st with cfg := updateCfg next st.cfg, disabledReason := none, timerOn := true }

/-- C7: once the circuit breaker has tripped — after a failed tick whose
consecutive-failure count reaches getMaxConsecutiveFailures the loop
sets disabledReason (conjunct 2) — every subsequent tick, while the loop
stays enabled and disabledReason set, only increments skippedTicks and
emits the skip event, calling neither expireStale nor pickForAutonomous
nor the orchestrator (conjunct 1, an exact-state equation); applyConfig
whose merged config is enabled clears disabledReason (conjunct 3) while
applyConfig leaving the loop disabled preserves it (conjunct 4). -/
theorem autonomous_circuit_breaker :
    (∀ (env : TickEnv) (st : ALState) (r : String), st.cfg.enabled = true →
      st.disabledReason = some r →
      tick env st = ({ st with skippedTicks := st.skippedTicks + 1 },
        ⟨false, false, false, ["autonomous.tick.skip"]⟩)) ∧
    (∀ (env : TickEnv) (st : ALState), st.cfg.enabled = true → st.disabledReason = none →
      st.running = false → env.runtimeBusy = false →
      skipForQueuePressure st.cfg env = false → taskPressureSkip env = false →
      tickFails env = true →
      maxFailuresOf st.cfg ≤ (st.consecutiveFailures + 1 : Int) →
      (tick env st).1.disabledReason = some (disabledMsg (st.consecutiveFailures + 1))) ∧
    (∀ (next : ALPatch) (st : ALState), (updateCfg next st.cfg).enabled = true →
      (applyConfig next st).disabledReason = none) ∧
    (∀ (next : ALPatch) (st : ALState), (updateCfg next st.cfg).enabled = false →
      (applyConfig next st).disabledReason = st.disabledReason) := by
  refine ⟨?_, ?_, ?_, ?_⟩
  · intro env st r he hd
    unfold tick
    rw [he, hd]
    rfl
  · intro env st he hd hr hb hq hp hf hmax
    simp [tick, he, hd, hr, hb, hq, hp, hf, hmax]
  · intro next st he
    unfold applyConfig
    rw [he]
    by_cases hp : st.cfg.enabled = true <;> simp [hp]
  · intro next st he
    unfold applyConfig
    rw [he]
    rfl

/-- Concrete tripped state and environment for the C7 witness. -/
def exTrippedSt : ALState :=
  ⟨⟨true, "", 90000, 2, 5, 336, 72⟩, true, false, none, some "boom", 5, 7, 3,
   some (disabledMsg 5)⟩

def exTickEnv : TickEnv := ⟨false, 0, false, 0, 0, 6, 0, .ok "done", 1000⟩

/-- Witness for C7: applying the skip conjunct at the concrete tripped
state: the tick only bumps skippedTicks and emits the skip event. -/
theorem autonomous_circuit_breaker_witness :
    tick exTickEnv exTrippedSt =
      ({ exTrippedSt with skippedTicks := exTrippedSt.skippedTicks + 1 },
       ⟨false, false, false, ["autonomous.tick.skip"]⟩) :=
  autonomous_circuit_breaker.1 exTickEnv exTrippedSt (disabledMsg 5) rfl rfl

/-! ## Objective queue (ObjectiveQueue in the source) -/

/-- One objective as built by ObjectiveQueue.add.  Timestamps are
millisecond integers (the source stores ISO strings produced from the
same instant); priority is a number (Number.isFinite always holds for
the Int model, matching the source's finite-number guard). -/
structure Objective where
  id : String
  title : String
  description : String
  priority : Int
  status : String
  source : String
  createdAt : Int
  updatedAt : Int
  runCount : Nat
  lastRunAt : Option Int
  notes : List (Int × String)
deriving Repr, DecidableEq

/-- In-memory objectives list plus the persisted objectives JSON file
(modelled as the list it contains). -/
structure ObjState where
  objectives : List Objective
  file : List Objective
deriving Repr, DecidableEq

/-- ObjectiveQueue.add (part_002 lines 3198-3220): build the objective,
throw before any mutation when the trimmed title is empty, else push
and persist. -/
def objectiveAdd (st : ObjState) (newId : String) (now : Int)
    (title description : String) (priority : Int) (source : String) :
    Except String (Objective × ObjState) :=
  if jsTrim title = "" then .error "Objective title is required"
  else
    .ok (⟨newId, jsTrim title, jsTrim description, priority, "pending", source,
          now, now, 0, none, []⟩,
         ⟨st.objectives ++ [⟨newId, jsTrim title, jsTrim description, priority, "pending",
            source, now, now, 0, none, []⟩],
          st.objectives ++ [⟨newId, jsTrim title, jsTrim description, priority, "pending",
            source, now, now, 0, none, []⟩]⟩)

/-- C10: add with a title trimming to the empty string throws
"Objective title is required" before any mutation, so the in-memory
list and the objectives file stay as they were (the call yields no
successor state); with a non-empty trimmed title it appends exactly the
one new objective — status pending, runCount 0, empty notes — and
persists it (the file equals the new list). -/
theorem objective_add_spec (st : ObjState) (newId : String) (now : Int)
    (title description : String) (priority : Int) (source : String) :
    (jsTrim title = "" →
      objectiveAdd st newId now title description priority source =
        .error "Objective title is required") ∧
    (jsTrim title ≠ "" →
      objectiveAdd st newId now title description priority source =
        .ok (⟨newId, jsTrim title, jsTrim description, priority, "pending", source,
              now, now, 0, none, []⟩,
             ⟨st.objectives ++ [⟨newId, jsTrim title, jsTrim description, priority, "pending",
                source, now, now, 0, none, []⟩],
              st.objectives ++ [⟨newId, jsTrim title, jsTrim description, priority, "pending",
                source, now, now, 0, none, []⟩]⟩)) := by
  constructor
  · intro h
    unfold objectiveAdd
    rw [if_pos h]
  · intro h
    unfold objectiveAdd
    rw [if_neg h]

/-- Witness for C10: both branches at concrete inputs — a title of
blanks is rejected, a real title is appended with pending / 0 / []. -/
theorem objective_add_spec_witness :
    objectiveAdd ⟨[], []⟩ "id1" 0 "  " "d" 3 "manual" =
      .error "Objective title is required" ∧
    objectiveAdd ⟨[], []⟩ "id1" 0 "fix build" "d" 3 "manual" =
      .ok (⟨"id1", "fix build", "d", 3, "pending", "manual", 0, 0, 0, none, []⟩,
           ⟨[⟨"id1", "fix build", "d", 3, "pending", "manual", 0, 0, 0, none, []⟩],
            [⟨"id1", "fix build", "d", 3, "pending", "manual", 0, 0, 0, none, []⟩]⟩) :=
  ⟨(objective_add_spec ⟨[], []⟩ "id1" 0 "  " "d" 3 "manual").1 (by decide),
   (objective_add_spec ⟨[], []⟩ "id1" 0 "fix build" "d" 3 "manual").2 (by decide)⟩

/-! ## Raw conversation dedup (MemoryStore.addConversation,
shouldSkipConversationEntry)

Entries are modelled with their skip-relevant fields; createdAt is the
millisecond instant (Date.parse of the stored ISO string, always
finite, so the source's not-finite guard branch never fires for these
entries).  The daily/session markdown mirrors are not modelled: the
claim concerns the in-memory raw list and the raw JSONL file. -/

structure ConvEntry where
  actor : String
  content : String
  source : String
  createdAtMs : Int
  sessionKey : String
deriving Repr, DecidableEq

/-- Split on a character predicate (JS String.split on a regex class). -/
def splitOnPredCh (p : Char → Bool) (cs : List Char) : List (List Char) :=
  cs.foldr
    (fun c acc =>
      match acc with
      | [] => [[]]
      | h :: t => if p c then [] :: h :: t else (c :: h) :: t)
    [[]]

/-- normalizeConversationContent: collapse whitespace runs to single
spaces, trim, lower-case — equivalently the whitespace-separated words
joined by one space, lower-cased. -/
def normalizeConversationContent (s : String) : String :=
  jsToLower (joinSepCh " " (((splitOnPredCh isWsCh s.data).filter (fun w => w ≠ [])).map
    String.mk))

/-- Substring search from every position. -/
def containsSubFrom (sub : List Char) : List Char → Bool
  | [] => startsWithCh sub []
  | c :: cs => startsWithCh sub (c :: cs) || containsSubFrom sub cs

/-- JS String.includes. -/
def containsSub (s sub : String) : Bool := containsSubFrom sub.data s.data

/-- A prefix match followed by a regex word boundary. -/
def startsWithWordB (s pre : String) : Bool :=
  jsStartsWith s pre &&
    (match s.data.drop pre.data.length with
     | [] => true
     | c :: _ => !isWordCh c)

/-- looksLikeHealthPing: the anchored alternation with trailing word
boundary. -/
def looksLikeHealthPing (content : String) : Bool :=
  content ≠ "" &&
    (["health ping", "healthcheck", "health check", "ping", "status", "check health"].any
      (fun pre => startsWithWordB content pre))

/-- The importance alternation tested (case-insensitively) against the
raw content of autonomous assistant entries. -/
def autonomousMeaningful (raw : String) : Bool :=
  (["completed", "blocked", "failed", "critical", "decision", "objective",
    "created objective", "updated objective", "error", "exception", "deploy",
    "release", "fix", "bug"].any
    (fun w => containsSub (jsToLower raw) w))

/-- One near-duplicate comparison of the dedup loop (part_002 lines
1582-1605): same lower-cased actor and source (note: the previous
entry's fields are lower-cased but not trimmed), same non-empty
normalized content, and within the 6-hour window. -/
def dedupMatches (entry : ConvEntry) (actor source content : String) (prev : ConvEntry) :
    Bool :=
  (jsToLower prev.actor == actor) &&
  (jsToLower prev.source == source) &&
  !(normalizeConversationContent prev.content == "") &&
  (normalizeConversationContent prev.content == content) &&
  decide (prev.createdAtMs ≤ entry.createdAtMs) &&
  decide (entry.createdAtMs - prev.createdAtMs < 21600000)

/-- shouldSkipConversationEntry (part_002 lines 1537-1608); the early
returns of pure conditions appear as the if-chain below. -/
def shouldSkipConversationEntry (entry : ConvEntry) (recentEntries : List ConvEntry) :
    Bool :=
  if normalizeConversationContent entry.content == "" then true
  else if (jsToLower (jsTrim entry.actor) == "user") &&
      looksLikeHealthPing (normalizeConversationContent entry.content) &&
      (jsStartsWith (jsToLower (jsTrim entry.source)) "cli:" ||
       jsStartsWith (jsToLower (jsTrim entry.source)) "dashboard:" ||
       jsStartsWith (jsToLower (jsTrim entry.source)) "slack:" ||
       jsStartsWith (jsToLower (jsTrim entry.source)) "telegram:") then true
  else if (jsToLower (jsTrim entry.actor) == "assistant") &&
      jsStartsWith (normalizeConversationContent entry.content) "pong" &&
      containsSub (normalizeConversationContent entry.content) "nxclaw is healthy" then true
  else if (jsToLower (jsTrim entry.actor) == "user") &&
      jsStartsWith (jsToLower (jsTrim entry.source)) "autonomous:" &&
      (jsStartsWith (normalizeConversationContent entry.content)
          "[autonomous maintenance cycle]" ||
       jsStartsWith (normalizeConversationContent entry.content)
          "[autonomous objective cycle]") then true
  else if (jsToLower (jsTrim entry.actor) == "assistant") &&
      jsStartsWith (jsToLower (jsTrim entry.source)) "autonomous:" &&
      !autonomousMeaningful entry.content &&
      decide ((normalizeConversationContent entry.content).length < 420) then true
  else
    (jsSliceLast recentEntries 120).any
      (dedupMatches entry (jsToLower (jsTrim entry.actor)) (jsToLower (jsTrim entry.source))
        (normalizeConversationContent entry.content))

/-- In-memory raw list and the raw JSONL file. -/
structure ConvState where
  rawEntries : List ConvEntry
  rawFile : List ConvEntry
deriving Repr, DecidableEq

/-- MemoryStore.addConversation (part_002 lines 2639-2675), restricted
to the raw list and raw file: trim the content, return null on empty or
skipped entries without touching anything, else append to both. -/
def addConversation (st : ConvState) (actor content source sessionKey : String)
    (nowMs : Int) : Option ConvEntry × ConvState :=
  if jsTrim content = "" then (none, st)
  else if shouldSkipConversationEntry ⟨actor, jsTrim content, source, nowMs, sessionKey⟩
      st.rawEntries then (none, st)
  else
    (some ⟨actor, jsTrim content, source, nowMs, sessionKey⟩,
     ⟨st.rawEntries ++ [⟨actor, jsTrim content, source, nowMs, sessionKey⟩],
      st.rawFile ++ [⟨actor, jsTrim content, source, nowMs, sessionKey⟩]⟩)

/-- The last element appended to a list is within its slice(-120). -/
theorem mem_jsSliceLast_append (xs : List α) (x : α) (n : Nat) (hn : 0 < n) :
    x ∈ jsSliceLast (xs ++ [x]) n := by
  unfold jsSliceLast
  rw [List.drop_append_eq_append_drop]
  refine List.mem_append.mpr (Or.inr ?_)
  have h0 : (xs ++ [x]).length - n - xs.length = 0 := by
    rw [List.length_append]
    simp
    omega
  rw [h0]
  exact List.mem_singleton.mpr rfl

/-- If some recent entry matches the dedup comparison, the entry is
skipped (whatever the earlier health-ping branches would have said,
every branch of shouldSkipConversationEntry returns true). -/
theorem shouldSkip_of_dedup (entry : ConvEntry) (recent : List ConvEntry)
    (h : (jsSliceLast recent 120).any
      (dedupMatches entry (jsToLower (jsTrim entry.actor)) (jsToLower (jsTrim entry.source))
        (normalizeConversationContent entry.content)) = true) :
    shouldSkipConversationEntry entry recent = true := by
  unfold shouldSkipConversationEntry
  split
  · rfl
  · split
    · rfl
    · split
      · rfl
      · split
        · rfl
        · split
          · rfl
          · exact h

/-- C5 (counterexample): with actor " u" (a leading blank) the same
content from the same source twice within 6 hours is stored twice: the
dedup loop lower-cases but does not trim the stored entry's actor, so
" u" never matches the trimmed-and-lower-cased probe "u".  The second
call returns the stored entry instead of null and grows the raw list to
two entries, refuting the claim as stated. -/
theorem conversation_dedupe_claim_counterexample :
    (addConversation ⟨[], []⟩ " u" "hi" "s" "" 0).1 =
      some ⟨" u", "hi", "s", 0, ""⟩ ∧
    (addConversation ((addConversation ⟨[], []⟩ " u" "hi" "s" "" 0).2)
        " u" "hi" "s" "" 1000).1 =
      some ⟨" u", "hi", "s", 1000, ""⟩ ∧
    ((addConversation ((addConversation ⟨[], []⟩ " u" "hi" "s" "" 0).2)
        " u" "hi" "s" "" 1000).2).rawEntries.length = 2 := by
  refine ⟨by decide, by decide, by decide⟩

/-- C5 (amended): when the shared actor and source strings carry no
surrounding whitespace (they equal their own trims — the situation for
every actor the runtime ever passes, "user" or "assistant"), a second
addConversation call with content normalizing to the same text, at or
after the first and less than 6 hours later, is dropped: it returns
null and leaves the raw entry list and the raw JSONL file exactly as
the first call left them. -/
theorem conversation_dedupe_within_6h (st0 : ConvState)
    (a c1 c2 s key1 key2 : String) (t1 t2 : Int) (e1 : ConvEntry) (st1 : ConvState)
    (ha : jsTrim a = a) (hs : jsTrim s = s)
    (hfirst : addConversation st0 a c1 s key1 t1 = (some e1, st1))
    (hnorm : normalizeConversationContent (jsTrim c1) =
      normalizeConversationContent (jsTrim c2))
    (ht : t1 ≤ t2) (hwin : t2 - t1 < 21600000) :
    addConversation st1 a c2 s key2 t2 = (none, st1) := by
  unfold addConversation at hfirst
  split at hfirst
  · exact absurd (congrArg Prod.fst hfirst) (by simp)
  · split at hfirst
    · exact absurd (congrArg Prod.fst hfirst) (by simp)
    · rename_i hne1 hskip1
      have he1 : e1 = ⟨a, jsTrim c1, s, t1, key1⟩ := by
        have := congrArg Prod.fst hfirst
        simpa using this.symm
      have hst1 : st1 = ⟨st0.rawEntries ++ [⟨a, jsTrim c1, s, t1, key1⟩],
          st0.rawFile ++ [⟨a, jsTrim c1, s, t1, key1⟩]⟩ := by
        have := congrArg Prod.snd hfirst
        simpa using this.symm
      unfold addConversation
      by_cases h2 : jsTrim c2 = ""
      · rw [if_pos h2]
      · rw [if_neg h2]
        have hskip : shouldSkipConversationEntry ⟨a, jsTrim c2, s, t2, key2⟩
            st1.rawEntries = true := by
          by_cases hcE : normalizeConversationContent (jsTrim c2) = ""
          · unfold shouldSkipConversationEntry
            rw [if_pos (by simpa using hcE)]
          · refine shouldSkip_of_dedup _ _ ?_
            refine List.any_eq_true.mpr ⟨⟨a, jsTrim c1, s, t1, key1⟩, ?_, ?_⟩
            · rw [hst1]
              exact mem_jsSliceLast_append _ _ 120 (by omega)
            · unfold dedupMatches
              dsimp only
              rw [ha, hs, hnorm]
              simp [hcE, ht, hwin]
        rw [if_pos hskip]

/-- Witness for C5 (amended): actor "user", source "slackx", contents
"hello" and " hello " (same normalized text), 1 second apart: the
second call returns null and leaves the state of the first call. -/
theorem conversation_dedupe_within_6h_witness :
    addConversation ⟨[⟨"user", "hello", "slackx", 0, ""⟩],
                     [⟨"user", "hello", "slackx", 0, ""⟩]⟩
      "user" " hello " "slackx" "" 1000 =
    (none, ⟨[⟨"user", "hello", "slackx", 0, ""⟩], [⟨"user", "hello", "slackx", 0, ""⟩]⟩) :=
  conversation_dedupe_within_6h ⟨[], []⟩ "user" "hello" " hello " "slackx" "" "" 0 1000
    ⟨"user", "hello", "slackx", 0, ""⟩
    ⟨[⟨"user", "hello", "slackx", 0, ""⟩], [⟨"user", "hello", "slackx", 0, ""⟩]⟩
    (by decide) (by decide) (by decide) (by decide) (by decide) (by decide)

/-! ## Embeddings and vector dimensions (MemoryStore)

Math.log and Math.sqrt are irrational-valued library functions; the
embedding keeps scores in the rationals and treats the two primitives
as parameters (a RealPrims record).  No theorem below depends on the
value of the log primitive; the concrete instantiation ratSqrt is exact
on perfect squares, which is all the concrete inputs use.  Network
calls of the remote embedding providers are modelled as response
functions supplied in an EmbedRemote environment. -/

structure RealPrims where
  logQ : Rat → Rat
  sqrtQ : Rat → Rat

/-- Integer square root by bounded search (kernel-reducible, unlike the
well-founded Nat.sqrt). -/
def natSqrtLin (n : Nat) : Nat :=
  (List.range (n + 1)).foldl (fun acc r => if r * r ≤ n then max acc r else acc) 0

/-- Square root surrogate, exact whenever numerator and denominator are
perfect squares. -/
def ratSqrt (q : Rat) : Rat := (natSqrtLin q.num.toNat : Rat) / (natSqrtLin q.den : Rat)

/-- Placeholder instantiation for the logarithm; no theorem in this file
depends on its values. -/
def ratLogStub (_ : Rat) : Rat := 0

def exPrims : RealPrims := ⟨ratLogStub, ratSqrt⟩

/-- cosineSimilarity from the source: dot and norms over the common
prefix of the two vectors. -/
def cosineSimilarity (p : RealPrims) (a b : List Rat) : Rat :=
  if a = [] ∨ b = [] then 0
  else
    let dot := (a.zip b).foldl (fun acc q => acc + q.1 * q.2) 0
    let normA := (a.zip b).foldl (fun acc q => acc + q.1 * q.1) 0
    let normB := (a.zip b).foldl (fun acc q => acc + q.2 * q.2) 0
    if normA = 0 ∨ normB = 0 then 0
    else dot / (p.sqrtQ normA * p.sqrtQ normB)

/-- normalizeVector from the source: scale by 1/sqrt(norm) unless the
norm is not positive. -/
def normalizeVector (p : RealPrims) (v : List Rat) : List Rat :=
  if v.foldl (fun acc x => acc + x * x) 0 ≤ 0 then v
  else v.map (fun x => x * (1 / p.sqrtQ (v.foldl (fun acc x => acc + x * x) 0)))

/-- The STOPWORDS set of the memory store. -/
def STOPWORDS : List String :=
  ["the", "and", "for", "that", "this", "with", "from", "have", "will", "were",
   "your", "about", "into", "after", "before", "while", "there", "where", "when",
   "what", "which", "whose", "would", "could", "should", "task", "agent", "user",
   "assistant", "code", "need", "done", "next", "then"]

/-- A character the tokenizer keeps: the class a-z, 0-9, underscore. -/
def isTokenCh (c : Char) : Bool :=
  (97 ≤ c.toNat && c.toNat ≤ 122) || (48 ≤ c.toNat && c.toNat ≤ 57) || c = '_'

/-- tokenize from the memory store: lower-case, split on the complement
of the token class, keep tokens of length at least 2 that are not stop
words. -/
def tokenize (text : String) : List String :=
  ((((splitOnPredCh (fun c => !isTokenCh c) (jsToLower text).data).filter
      (fun w => w ≠ [])).map String.mk).filter
    (fun t => 2 ≤ t.length && !(STOPWORDS.contains t)))

/-- One token of localEmbedText: SHA-1 the token, bucket by the first
two digest bytes mod the vector length, signed weight from bytes 2-3. -/
def localEmbedStep (vec : List Rat) (token : String) : List Rat :=
  let digest := sha1Bytes (strBytes token)
  let idx := ((digest.getD 0 0) <<< 8 ||| digest.getD 1 0) % vec.length
  let sign : Rat := if (digest.getD 2 0) % 2 = 0 then 1 else -1
  let weight : Rat := 1 + ((digest.getD 3 0) % 7 : Nat) * ((1 : Rat) / 10)
  vec.set idx (vec.getD idx 0 + sign * weight)

/-- localEmbedText: deterministic SHA-1 token hashing into a vector of
max(8, dims) buckets, then unit normalization. -/
def localEmbedText (p : RealPrims) (text : String) (dims : Nat) : List Rat :=
  if tokenize text = [] then List.replicate (max 8 dims) 0
  else
    normalizeVector p ((tokenize text).foldl localEmbedStep (List.replicate (max 8 dims) 0))

theorem normalizeVector_length (p : RealPrims) (v : List Rat) :
    (normalizeVector p v).length = v.length := by
  unfold normalizeVector
  split
  · rfl
  · exact List.length_map _ _

theorem localEmbedStep_length (vec : List Rat) (token : String) :
    (localEmbedStep vec token).length = vec.length := by
  unfold localEmbedStep
  exact List.length_set _ _ _

theorem localEmbedFold_length (ts : List String) (vec : List Rat) :
    (ts.foldl localEmbedStep vec).length = vec.length := by
  induction ts generalizing vec with
  | nil => rfl
  | cons t rest ih => rw [List.foldl_cons, ih, localEmbedStep_length]

theorem localEmbedText_length (p : RealPrims) (text : String) (dims : Nat) :
    (localEmbedText p text dims).length = max 8 dims := by
  unfold localEmbedText
  split
  · exact List.length_replicate _ _
  · rw [normalizeVector_length, localEmbedFold_length]
    exact List.length_replicate _ _

/-- The vector.{...} config normalization of the MemoryStore
constructor: dims becomes max(32, dims || 256), batchSize max(1, ...). -/
structure VectorCfg where
  enabled : Bool
  provider : String
  model : String
  dims : Nat
  batchSize : Nat
  cacheEnabled : Bool
deriving Repr, DecidableEq

def mkVectorCfg (enabled : Bool) (provider model : String) (dimsRaw batchRaw : Int)
    (cacheEnabled : Bool) : VectorCfg :=
  ⟨enabled, provider, model, (max 32 (jsOrInt dimsRaw 256)).toNat,
   (max 1 (jsOrInt batchRaw 32)).toNat, cacheEnabled⟩

/-- External embedding environment: key presence and the per-request
responses of the remote providers (none models a failed or non-ok
request; a row of none models a missing embedding array in the
payload). -/
structure EmbedRemote where
  openAiKey : Bool
  geminiKey : Bool
  openAiResp : List String → Option (List (Option (List Rat)))
  geminiResp : String → Option (List Rat)

/-- resolveEmbeddingProvider. -/
def resolveEmbeddingProvider (cfg : VectorCfg) (r : EmbedRemote) : String :=
  if jsToLower cfg.provider = "openai" ∨ jsToLower cfg.provider = "gemini" ∨
      jsToLower cfg.provider = "local" then jsToLower cfg.provider
  else if r.openAiKey then "openai"
  else if r.geminiKey then "gemini"
  else "local"

/-- embedWithOpenAi: fall back to local embedding without a key, on a
failed request, on an empty data array, and per row without an
embedding array; remote vectors are used at whatever length the
provider returned, only re-normalized. -/
def embedWithOpenAi (p : RealPrims) (cfg : VectorCfg) (r : EmbedRemote)
    (texts : List String) : List (List Rat) :=
  if ¬r.openAiKey then texts.map (fun t => localEmbedText p t cfg.dims)
  else
    match r.openAiResp texts with
    | none => texts.map (fun t => localEmbedText p t cfg.dims)
    | some rows =>
      if rows = [] then texts.map (fun t => localEmbedText p t cfg.dims)
      else
        texts.enum.map (fun pr =>
          match (rows.getD pr.1 none) with
          | some v => normalizeVector p v
          | none => localEmbedText p pr.2 cfg.dims)

/-- embedWithGemini: one request per text, local fallback without a key
or on a failed request or an empty values array. -/
def embedWithGemini (p : RealPrims) (cfg : VectorCfg) (r : EmbedRemote)
    (texts : List String) : List (List Rat) :=
  if ¬r.geminiKey then texts.map (fun t => localEmbedText p t cfg.dims)
  else
    texts.map (fun t =>
      match r.geminiResp t with
      | none => localEmbedText p t cfg.dims
      | some vs => if vs = [] then localEmbedText p t cfg.dims else normalizeVector p vs)

/-- The provider dispatch inside embedTexts (lines 2370-2382). -/
def providerEmbed (p : RealPrims) (cfg : VectorCfg) (r : EmbedRemote) (provider : String)
    (batchTexts : List String) : List (List Rat) :=
  if ¬cfg.enabled ∨ provider = "local" then
    batchTexts.map (fun t => localEmbedText p t cfg.dims)
  else if provider = "openai" then embedWithOpenAi p cfg r batchTexts
  else if provider = "gemini" then embedWithGemini p cfg r batchTexts
  else batchTexts.map (fun t => localEmbedText p t cfg.dims)

/-- A cache hit must be a non-empty stored vector. -/
def cacheLookup (cache : List (String × List Rat)) (h : String) : Option (List Rat) :=
  match alLookup cache h with
  | some v => if v = [] then none else some v
  | none => none

/-- Split a list into chunks of n (the batching loop). -/
def chunkList (n : Nat) (l : List α) : List (List α) :=
  (List.range ((l.length + n - 1) / n)).map (fun i => (l.drop (i * n)).take n)

/-- embedTexts (lines 2348-2399): per text, a cached vector when caching
is on and the cache holds a non-empty vector for its hash; otherwise
the vector its batch obtained from the provider; the final fallback
localEmbedText(text, dims) of line 2398 covers any unfilled slot.
(Cache writes are not modelled; only lookups affect the results.) -/
def embedTexts (p : RealPrims) (cfg : VectorCfg) (r : EmbedRemote) (provider : String)
    (cache : List (String × List Rat)) (texts : List String) (useCache : Bool) :
    List (List Rat) :=
  let cached := fun (t : String) => if useCache then cacheLookup cache (hashText t) else none
  let missing := texts.enum.filter (fun pr => cached pr.2 = none)
  let filled : List (Nat × List Rat) :=
    ((chunkList (max 1 cfg.batchSize) missing).map
      (fun batch =>
        (batch.zip (providerEmbed p cfg r provider (batch.map Prod.snd))).map
          (fun bv => (bv.1.1, bv.2)))).flatten
  texts.enum.map (fun pr =>
    match cached pr.2 with
    | some v => v
    | none => (alLookup filled pr.1).getD (localEmbedText p pr.2 cfg.dims))

/-- A knowledge chunk of the in-memory index / on-disk index file. -/
structure KChunk where
  hash : String
  text : String
  path : String
  sourceType : String
  vector : List Rat
deriving Repr, DecidableEq

/-- A not-yet-vectorized chunk as produced by the splitters during
syncKnowledgeIndex. -/
structure PreChunk where
  hash : String
  text : String
  path : String
  sourceType : String
deriving Repr, DecidableEq

/-- Vector reuse of syncKnowledgeIndex lines 2451-2457: a non-empty
vector from the prior on-disk index, else from the embedding cache. -/
def prevOrCache (prevIndex cacheMap : List (String × List Rat)) (h : String) :
    Option (List Rat) :=
  match cacheLookup prevIndex h with
  | some v => some v
  | none => cacheLookup cacheMap h

/-- The vector-assignment part of syncKnowledgeIndex (lines 2439-2477):
reuse vectors by hash, embed the rest, and apply the final local
fallback of line 2476.  The resulting chunks are both the in-memory
knowledgeChunks and what is written to the index file (line 2483-2494
writes the same vectors). -/
def syncChunkVectors (p : RealPrims) (cfg : VectorCfg) (r : EmbedRemote) (provider : String)
    (prevIndex cacheMap : List (String × List Rat)) (pieces : List PreChunk) :
    List KChunk :=
  let missing := pieces.enum.filter
    (fun pr => prevOrCache prevIndex cacheMap pr.2.hash = none)
  let vecs := embedTexts p cfg r provider cacheMap (missing.map (fun pr => pr.2.text)) true
  let assigned : List (Nat × List Rat) := (missing.map Prod.fst).zip vecs
  pieces.enum.map (fun pr =>
    match prevOrCache prevIndex cacheMap pr.2.hash with
    | some v => ⟨pr.2.hash, pr.2.text, pr.2.path, pr.2.sourceType, v⟩
    | none =>
      ⟨pr.2.hash, pr.2.text, pr.2.path, pr.2.sourceType,
       (alLookup assigned pr.1).getD (localEmbedText p pr.2.text cfg.dims)⟩)

theorem providerEmbed_local_length (p : RealPrims) (cfg : VectorCfg) (r : EmbedRemote)
    (batch : List String) :
    ∀ v ∈ providerEmbed p cfg r "local" batch, v.length = max 8 cfg.dims := by
  intro v hv
  unfold providerEmbed at hv
  rw [if_pos (Or.inr rfl)] at hv
  obtain ⟨t, _, ht⟩ := List.mem_map.mp hv
  rw [← ht]
  exact localEmbedText_length p t cfg.dims

theorem embedTexts_local_length (p : RealPrims) (cfg : VectorCfg) (r : EmbedRemote)
    (texts : List String) (useCache : Bool) :
    ∀ v ∈ embedTexts p cfg r "local" [] texts useCache, v.length = max 8 cfg.dims := by
  intro v hv
  simp only [embedTexts] at hv
  obtain ⟨pr, _, hf⟩ := List.mem_map.mp hv
  have hc : (if useCache then cacheLookup [] (hashText pr.2) else none) = (none : Option (List Rat)) := by
    cases useCache <;> rfl
  rw [hc] at hf
  dsimp only at hf
  rcases halk : alLookup (((chunkList (max 1 cfg.batchSize)
      (texts.enum.filter (fun pr =>
        (if useCache then cacheLookup [] (hashText pr.2) else none) = none))).map
      (fun batch =>
        (batch.zip (providerEmbed p cfg r "local" (batch.map Prod.snd))).map
          (fun bv => (bv.1.1, bv.2)))).flatten) pr.1 with _ | w
  · rw [halk] at hf
    rw [← hf]
    exact localEmbedText_length p pr.2 cfg.dims
  · rw [halk] at hf
    have hmem := alLookup_mem halk
    rw [List.mem_flatten] at hmem
    obtain ⟨l, hl, hql⟩ := hmem
    obtain ⟨batch, _, hbat⟩ := List.mem_map.mp hl
    rw [← hbat] at hql
    obtain ⟨bv, hbv, hq2⟩ := List.mem_map.mp hql
    rcases bv with ⟨a, b⟩
    have hsnd : b ∈ providerEmbed p cfg r "local" (batch.map Prod.snd) :=
      (List.of_mem_zip hbv).2
    have hw : w = b := by
      have := congrArg Prod.snd hq2
      simpa using this.symm
    rw [← hf, hw]
    exact providerEmbed_local_length p cfg r _ b hsnd

/-- C9 (amended): the configured dimension count is respected by the
local embedding path: the constructor clamps vector.dims to at least 32,
and with the local provider (no vectors reused from a prior index or the
embedding cache) every chunk vector produced by the index sync has
exactly cfg.dims entries.  Vectors returned by remote providers, or
reused from the prior on-disk index or the embedding cache, keep the
length they came with, which need not equal vector.dims (see the
counterexample). -/
theorem chunk_vector_dims_local :
    (∀ (e : Bool) (pv mo : String) (dr br : Int) (ce : Bool),
      32 ≤ (mkVectorCfg e pv mo dr br ce).dims) ∧
    (∀ (p : RealPrims) (cfg : VectorCfg) (r : EmbedRemote) (pieces : List PreChunk),
      8 ≤ cfg.dims →
      ∀ c ∈ syncChunkVectors p cfg r "local" [] [] pieces,
        c.vector.length = cfg.dims) := by
  constructor
  · intro e pv mo dr br ce
    show 32 ≤ (max 32 (jsOrInt dr 256)).toNat
    have : (32 : Int) ≤ max 32 (jsOrInt dr 256) := le_max_left _ _
    omega
  · intro p cfg r pieces hdims c hc
    simp only [syncChunkVectors] at hc
    obtain ⟨pr, _, hf⟩ := List.mem_map.mp hc
    have hnone : prevOrCache [] [] pr.2.hash = none := rfl
    rw [hnone] at hf
    dsimp only at hf
    have hmax : max 8 cfg.dims = cfg.dims := by omega
    rcases halk : alLookup ((((pieces.enum.filter
        (fun pr => prevOrCache [] [] pr.2.hash = none)).map Prod.fst).zip
        (embedTexts p cfg r "local" []
          ((pieces.enum.filter (fun pr => prevOrCache [] [] pr.2.hash = none)).map
            (fun pr => pr.2.text)) true)) : List (Nat × List Rat)) pr.1 with _ | w
    · rw [halk] at hf
      rw [← hf]
      show (localEmbedText p pr.2.text cfg.dims).length = cfg.dims
      rw [localEmbedText_length]
      exact hmax
    · rw [halk] at hf
      have hmem := alLookup_mem halk
      have hsnd := (List.of_mem_zip hmem).2
      rw [← hf]
      show w.length = cfg.dims
      rw [embedTexts_local_length p cfg r _ true w hsnd]
      exact hmax

/-- Concrete embedding environments. -/
def exRemoteOpenAi : EmbedRemote := ⟨true, false, fun _ => some [some [1, 0, 0]], fun _ => none⟩

def exRemoteNone : EmbedRemote := ⟨false, false, fun _ => none, fun _ => none⟩

def exVecCfg : VectorCfg := mkVectorCfg true "openai" "text-embedding-3-small" 32 32 true

def exVecCfgLocal : VectorCfg := mkVectorCfg true "local" "m" 32 32 true

/-- C9 (counterexample): with the OpenAI provider and a response whose
embedding has 3 entries, the synced chunk's vector — both kept in
memory and written to the index file — has length 3, not the configured
dims = 32: embedWithOpenAi only re-normalizes remote vectors, it never
resizes them to vector.dims. -/
theorem chunk_vector_dims_claim_counterexample :
    exVecCfg.dims = 32 ∧
    resolveEmbeddingProvider exVecCfg exRemoteOpenAi = "openai" ∧
    (syncChunkVectors exPrims exVecCfg exRemoteOpenAi "openai" [] []
        [⟨"h1", "a", "/w/MEMORY.md", "memory_main"⟩]).map (fun c => c.vector.length) =
      [3] := by
  refine ⟨by decide, by decide, by rfl⟩

/-- Witness for C9 (amended): syncing one chunk with the local provider
and empty caches yields its vector at exactly the configured 32 dims. -/
theorem chunk_vector_dims_local_witness :
    (⟨"h1", "a", "/w/MEMORY.md", "memory_main", List.replicate 32 (0 : Rat)⟩ : KChunk).vector.length
      = exVecCfgLocal.dims :=
  chunk_vector_dims_local.2 exPrims exVecCfgLocal exRemoteNone
    [⟨"h1", "a", "/w/MEMORY.md", "memory_main"⟩] (by decide)
    ⟨"h1", "a", "/w/MEMORY.md", "memory_main", List.replicate 32 (0 : Rat)⟩ (by decide)

/-! ## Hybrid search (MemoryStore.scoreKnowledge / MemoryStore.search) -/

/-- The character class kept by safeSessionFileName: [a-zA-Z0-9_.-]. -/
def safeFileCh (c : Char) : Bool := c.isAlphanum || c = '_' || c = '.' || c = '-'

/-- Replace every run of disallowed characters by one underscore. -/
def replaceBadRunsGo : Bool → List Char → List Char
  | _, [] => []
  | prevBad, c :: cs =>
    if safeFileCh c then c :: replaceBadRunsGo false cs
    else if prevBad then replaceBadRunsGo true cs
    else '_' :: replaceBadRunsGo true cs

/-- Strip leading and trailing underscore runs. -/
def stripUnderscoreEnds (cs : List Char) : List Char :=
  ((cs.dropWhile (fun c => c = '_')).reverse.dropWhile (fun c => c = '_')).reverse

/-- safeSessionFileName from the memory store: trim, replace disallowed
runs with "_", strip underscore ends, cap at 120 characters. -/
def safeSessionFileName (sessionKey : String) : String :=
  String.mk ((stripUnderscoreEnds (replaceBadRunsGo false (trimCh sessionKey.data))).take 120)

/-- Per-chunk term frequencies (chunk._tf of collectTokenStats). -/
def termFreq (text : String) : List (String × Nat) :=
  (tokenize text).foldl (fun m t => alSet m t ((alLookup m t).getD 0 + 1)) []

/-- Per-chunk token count with the || 1 floor (chunk._len). -/
def docLen (text : String) : Nat := max 1 (tokenize text).length

/-- First occurrences of a token list (Set insertion order). -/
def dedupStr (l : List String) : List String :=
  l.foldl (fun acc t => if acc.contains t then acc else acc ++ [t]) []

/-- Corpus statistics of collectTokenStats. -/
structure BmStats where
  docFreq : List (String × Nat)
  avgDocLen : Rat
  docs : Nat
deriving Repr, DecidableEq

/-- collectTokenStats over the knowledge chunks. -/
def collectTokenStats (chunks : List KChunk) : BmStats :=
  let docFreq := chunks.foldl
    (fun m c => (dedupStr (tokenize c.text)).foldl
      (fun m t => alSet m t ((alLookup m t).getD 0 + 1)) m) []
  let totalLen := chunks.foldl (fun acc c => acc + docLen c.text) 0
  let avg : Rat := if 0 < chunks.length then mkRat totalLen chunks.length else 1
  ⟨docFreq, max 1 avg, max 1 chunks.length⟩

/-- bm25Score with k1 = 1.4 and b = 0.75; tokens absent from the chunk
contribute nothing (the idf logarithm is consulted only for present
tokens, through the log primitive). -/
def bm25Score (p : RealPrims) (queryTokens : List String) (tf : List (String × Nat))
    (dl : Nat) (bm : BmStats) : Rat :=
  queryTokens.foldl
    (fun score token =>
      if (alLookup tf token).getD 0 = 0 then score
      else
        let tfv : Rat := ((alLookup tf token).getD 0 : Nat)
        let df : Rat := ((alLookup bm.docFreq token).getD 0 : Nat)
        let idf := p.logQ (1 + ((bm.docs : Rat) - df + mkRat 1 2) / (df + mkRat 1 2))
        let k1 : Rat := mkRat 7 5
        let b : Rat := mkRat 3 4
        let numer := tfv * (k1 + 1)
        let denom := tfv + k1 * (1 - b + b * (dl : Nat) / bm.avgDocLen)
        score + idf * (numer / denom))
    0

/-- sourceBoost from the source. -/
def sourceBoost (sourceType : String) : Rat :=
  if sourceType = "memory_main" then mkRat 1 10
  else if sourceType = "memory_daily" then mkRat 6 100
  else if sourceType = "session" then mkRat 5 100
  else if sourceType = "soul" then mkRat 7 100
  else if sourceType = "compact" then mkRat 45 1000
  else if sourceType = "raw" then mkRat 4 100
  else mkRat 25 1000

/-- A "## title" heading recognized by parseSoulSections. -/
def soulHeading (line : String) : Option String :=
  match line.data with
  | '#' :: '#' :: c :: rest => if isWsCh c then some (jsTrim (String.mk (c :: rest))) else none
  | _ => none

/-- parseSoulSections: blocks delimited by second-level headings, with
the implicit leading SOUL block, keeping only non-empty contents. -/
def parseSoulSections (markdown : String) : List (String × String) :=
  let fin := (jsSplitLines markdown).foldl
    (fun (st : List (String × String) × String × List String) line =>
      match soulHeading line with
      | some t =>
        if 0 < st.2.2.length then
          (st.1 ++ [(st.2.1, jsTrim (joinSepCh "
" st.2.2))], t, [])
        else (st.1, t, [])
      | none => (st.1, st.2.1, st.2.2 ++ [line]))
    ([], "SOUL", [])
  (if 0 < fin.2.2.length then fin.1 ++ [(fin.2.1, jsTrim (joinSepCh "
" fin.2.2))]
   else fin.1).filter (fun b => b.2 ≠ "")

/-- One search result, with the fields the scoping claim talks about. -/
structure SearchItem where
  kind : String
  content : String
  path : String
  sourceType : String
  sessionKey : String
  score : Rat
deriving Repr, DecidableEq

/-- Stable insertion into a descending-by-score list (Array.sort with
comparator (a, b) => b.score - a.score). -/
def insertDesc (x : SearchItem) : List SearchItem → List SearchItem
  | [] => [x]
  | y :: ys => if y.score < x.score then x :: y :: ys else y :: insertDesc x ys

def sortByScoreDesc (l : List SearchItem) : List SearchItem := l.foldr insertDesc []

/-- A compact (long-term note) entry as the search loop sees it. -/
structure CompactE where
  content : String
deriving Repr, DecidableEq

/-- The memory-store fields search reads. -/
structure MemoryStore where
  sessionMemoryDir : String
  knowledgeChunks : List KChunk
  rawEntries : List ConvEntry
  compactEntries : List CompactE
  soulMainText : String
  vector : VectorCfg
  searchCfg : Rat × Rat × Rat
  bm25 : BmStats

/-- MemoryStore.scoreKnowledge (part_002 lines 2823-2888): session
filters, bm25 + cosine scoring, minScore filter, descending sort,
limit. -/
def scoreKnowledge (p : RealPrims) (st : MemoryStore) (queryTokens : List String)
    (queryVector : List Rat) (limit : Nat) (sessionKey mode : String) : List SearchItem :=
  let qSession := jsTrim sessionKey
  let scopeMode := jsToLower (jsTrim mode)
  let strictFile := if qSession ≠ "" then safeSessionFileName qSession ++ ".md" else ""
  let candidates := st.knowledgeChunks.filterMap (fun chunk =>
    if qSession ≠ "" ∧ scopeMode = "session_strict" ∧
        ¬(chunk.sourceType = "session" ∧ jsEndsWith chunk.path strictFile) then none
    else if qSession ≠ "" ∧ chunk.sourceType = "session" ∧
        ¬jsEndsWith chunk.path (safeSessionFileName qSession ++ ".md") then none
    else if qSession ≠ "" ∧ chunk.sourceType = "memory_daily" ∧
        containsSub chunk.text "| session=" ∧
        ¬containsSub chunk.text ("| session=" ++ qSession) then none
    else
      let textScore := bm25Score p queryTokens (termFreq chunk.text) (docLen chunk.text) st.bm25
      let vectorScore : Rat :=
        if st.vector.enabled ∧ queryVector ≠ [] then
          max 0 (cosineSimilarity p queryVector chunk.vector)
        else 0
      if textScore ≤ 0 ∧ vectorScore ≤ 0 then none
      else
        some ⟨"knowledge", chunk.text, chunk.path, chunk.sourceType, "",
          st.searchCfg.2.1 * textScore + st.searchCfg.1 * vectorScore +
            sourceBoost chunk.sourceType⟩)
  (sortByScoreDesc (candidates.filter (fun i => st.searchCfg.2.2 ≤ i.score))).take limit

/-- MemoryStore.search (part_002 lines 2890-2981): the query embedding
is the resolved provider's answer for the query (supplied as embedQ);
indexed chunks are merged with scored recent raw entries and — outside
session_strict mode — compact entries and soul sections. -/
def memSearch (p : RealPrims) (st : MemoryStore) (embedQ : String → List Rat)
    (query : String) (limit : Nat) (sessionKey mode : String) : List SearchItem :=
  if jsTrim query = "" then []
  else
    let q := jsTrim query
    let queryTokens := tokenize q
    let queryVector := if st.vector.enabled then embedQ q else localEmbedText p q st.vector.dims
    let scopedSessionKey := jsTrim sessionKey
    let scopeMode := jsToLower (jsTrim mode)
    let indexed := scoreKnowledge p st queryTokens queryVector (max (limit * 3) 20)
      scopedSessionKey scopeMode
    let dynamicRaw := (jsSliceLast st.rawEntries 140).filterMap (fun entry =>
      if scopedSessionKey ≠ "" ∧ scopeMode = "session_strict" ∧
          jsTrim entry.sessionKey ≠ scopedSessionKey then none
      else if scopedSessionKey ≠ "" ∧ jsTrim entry.sessionKey ≠ "" ∧
          jsTrim entry.sessionKey ≠ scopedSessionKey then none
      else
        let textScore :=
          if queryTokens ≠ [] then
            bm25Score p queryTokens ((tokenize entry.content).map (fun t => (t, 1)))
              (max 1 (tokenize entry.content).length)
              ⟨queryTokens.map (fun t => (t, 1)), 12, 2⟩
          else 0
        if textScore ≤ 0 ∧ ¬containsSub (jsToLower q) (jsToLower entry.actor) then none
        else some ⟨"raw", entry.content, "", "raw", entry.sessionKey,
          textScore + sourceBoost "raw"⟩)
    let dynamicRest :=
      if scopeMode ≠ "session_strict" then
        (jsSliceLast st.compactEntries 80).filterMap (fun entry =>
          let ts : Rat := ((queryTokens.filter
            (fun t => (tokenize entry.content).contains t)).length : Nat)
          if ts ≤ 0 then none
          else some ⟨"compact", entry.content, "", "compact", "", ts + sourceBoost "compact"⟩)
        ++ (parseSoulSections st.soulMainText).filterMap (fun sec =>
          let ts : Rat := ((queryTokens.filter
            (fun t => (tokenize sec.2).contains t)).length : Nat)
          if ts ≤ 0 then none
          else some ⟨"soul", sec.2, "", "soul", "", ts + sourceBoost "soul"⟩)
      else []
    (sortByScoreDesc (indexed ++ dynamicRaw ++ dynamicRest)).take (max limit 1)

/-- The session_strict store of the C4 scenario: one indexed chunk that
belongs to session "bba", whose file name ends with the session file
name of session "a". -/
def exSessionDir : String := "/home/x/workspace/memory/sessions"

def exBadChunk : KChunk := ⟨"h1", "alpha beta", exSessionDir ++ "/bba.md", "session", [1]⟩

def exStore : MemoryStore :=
  { sessionMemoryDir := exSessionDir,
    knowledgeChunks := [exBadChunk],
    rawEntries := [],
    compactEntries := [],
    soulMainText := "",
    vector := ⟨true, "openai", "m", 32, 32, true⟩,
    searchCfg := (mkRat 13 20, mkRat 7 20, mkRat 3 25),
    bm25 := collectTokenStats [exBadChunk] }

/-- C4: search in session_strict mode for sessionKey "a" returns the
chunk of the other session "bba" — its file ".../sessions/bba.md"
passes the endsWith("a.md") filter of scoreKnowledge — so the result is
not confined to session "a"'s own session file and raw entries, against
both the claim and the spec's own scoping invariant.  The query scores
the chunk through its vector (cosine 1 against the stored vector); no
raw entry with sessionKey "a" exists, yet the result is non-empty and
names the foreign session file. -/
theorem search_session_strict_crosses_sessions :
    (memSearch exPrims exStore (fun _ => [1]) "hello" 8 "a" "session_strict").map
        (fun i => (i.kind, i.path)) =
      [("knowledge", exSessionDir ++ "/bba.md")] ∧
    exSessionDir ++ "/" ++ safeSessionFileName "a" ++ ".md" = exSessionDir ++ "/a.md" ∧
    exSessionDir ++ "/bba.md" ≠ exSessionDir ++ "/a.md" := by
  refine ⟨by rfl, by rfl, by decide⟩

end Nxclaw
